import Mathlib

/-!
# GSiSRIO: shift-register scan and debounce engine

A shallow embedding of `src/GSiSRIO/SRIO.h` (class `GSiSRIO`).

* `uint8_t` values are natural numbers; every store that can leave the 8-bit
  range is reduced `% 256` explicitly.  Arguments of type `uint8_t` are taken as
  given, so a caller passes values below 256.
* The four fixed-size member arrays are functions on `Fin capacity`; an access
  with an index outside the capacity makes the operation return `none`.
* The host GPIO primitives and the user callback are recorded as a trace of
  `Event`s, in program order.  The levels returned by `digitalRead` during one
  `Run` are supplied by a sample stream `si : Nat → Nat`, where `si k` is the
  level returned by the `k`-th read of that `Run` (counting from 0).
* The callback is an observer: it receives `(pin, pin_value)` and does not call
  back into the engine.
-/

namespace SRIO

/-- Capacity of the register arrays (`#define MAX_SRs 4`). -/
def MAX_SRs : Nat := 4

/-- Modelled from the spec: the two logic levels of the host GPIO interface, which
the source uses but does not define (`LOW` is 0 on the Arduino platform). -/
def LOW : Nat := 0

/-- Modelled from the spec: the two logic levels of the host GPIO interface, which
the source uses but does not define (`HIGH` is 1 on the Arduino platform). -/
def HIGH : Nat := 1

/-- Modelled from the spec: the direction argument of the host's pin
configuration primitive, input or output. -/
inductive PinMode where
  | INPUT
  | OUTPUT
  deriving DecidableEq

/-- One call that leaves the engine: a GPIO primitive or the user callback. -/
inductive Event where
  | pinMode (pin : Nat) (mode : PinMode)
  | digitalWrite (pin : Nat) (status : Nat)
  | digitalRead (pin : Nat)
  | callback (pin : Nat) (pin_value : Nat)
  deriving DecidableEq

/-- Checked read of a fixed-capacity array. -/
def readAt {n : Nat} (a : Fin n → Nat) (i : Nat) : Option Nat :=
  if h : i < n then some (a ⟨i, h⟩) else none

/-- Checked write of a fixed-capacity array. -/
def writeAt {n : Nat} (a : Fin n → Nat) (i : Nat) (v : Nat) : Option (Fin n → Nat) :=
  if h : i < n then some (Function.update a ⟨i, h⟩ v) else none

/-- The member variables of class `GSiSRIO`.  `DIN_Callback` records whether the
callback pointer is non-null. -/
structure GSiSRIO where
  DIN_Callback : Bool
  pin_sck : Nat
  pin_sh : Nat
  pin_so : Nat
  pin_si : Nat
  SR595ByteSet : Fin MAX_SRs → Nat
  SR165ByteSet : Fin MAX_SRs → Nat
  NumberOfShiftRegisters : Nat
  SRNumberOfPins : Nat
  SRDINStateOld : Fin (MAX_SRs * 8) → Nat
  SRIODebounceCounter : Fin (MAX_SRs * 8) → Nat
  SRIODebounceAmount : Nat

/-- A state of the engine together with the trace of the calls made so far. -/
abbrev Outcome : Type := GSiSRIO × List Event

/-- The constructor together with the default member initialisers: `{ 0 }` zeroes
an array, `{ 1 }` sets element 0 to 1 and zeroes the rest. -/
def construct (_pin_sck _pin_sh _pin_so _pin_si : Nat) : GSiSRIO :=
  { DIN_Callback := false
    pin_sck := _pin_sck
    pin_sh := _pin_sh
    pin_so := _pin_so
    pin_si := _pin_si
    SR595ByteSet := fun _ => 0
    SR165ByteSet := fun _ => 0
    NumberOfShiftRegisters := 1
    SRNumberOfPins := 8
    SRDINStateOld := fun i => if i.val = 0 then 1 else 0
    SRIODebounceCounter := fun _ => 0
    SRIODebounceAmount := 32 }

/-- Method `SRIO_NumberSet(num)`: an argument above `MAX_SRs` is replaced by
`MAX_SRs`; the pin count is stored in a `uint8_t`. -/
def SRIO_NumberSet (st : GSiSRIO) (num : Nat) : GSiSRIO :=
  let num := if num > MAX_SRs then MAX_SRs else num
  { st with NumberOfShiftRegisters := num, SRNumberOfPins := (num * 8) % 256 }

/-- Method `DOUT_SRSet(SR, byteSet)`: the unchecked store `SR595ByteSet[SR] = byteSet`. -/
def DOUT_SRSet (st : GSiSRIO) (SR byteSet : Nat) : Option GSiSRIO := do
  let a ← writeAt st.SR595ByteSet SR byteSet
  some { st with SR595ByteSet := a }

/-- Method `DOUT_PinSet(pin, pin_value)`.  The low eight bits of `~(1 << bit)` are
`255 ^^^ (1 <<< bit)`, and the result is stored in a `uint8_t`. -/
def DOUT_PinSet (st : GSiSRIO) (pin pin_value : Nat) : Option GSiSRIO := do
  let SR := pin >>> 3
  let bit := pin &&& 7
  let b ← readAt st.SR595ByteSet SR
  if pin_value > 0 then
    let a ← writeAt st.SR595ByteSet SR ((b ||| (1 <<< bit)) % 256)
    some { st with SR595ByteSet := a }
  else
    let a ← writeAt st.SR595ByteSet SR ((b &&& (255 ^^^ (1 <<< bit))) % 256)
    some { st with SR595ByteSet := a }

/-- Method `DIN_PinGet(pin)`: bit `pin & 7` of input byte `pin >> 3`. -/
def DIN_PinGet (st : GSiSRIO) (pin : Nat) : Option Nat := do
  let SR := pin >>> 3
  let bit := pin &&& 7
  let b ← readAt st.SR165ByteSet SR
  some ((b >>> bit) &&& 1)

/-- Method `DOUT_PinGet(pin)`: bit `pin & 7` of output byte `pin >> 3`. -/
def DOUT_PinGet (st : GSiSRIO) (pin : Nat) : Option Nat := do
  let SR := pin >>> 3
  let bit := pin &&& 7
  let b ← readAt st.SR595ByteSet SR
  some ((b >>> bit) &&& 1)

/-- Method `DebounceSet(db)`: stores the threshold as given (the clamp to 2 is
commented out in the source). -/
def DebounceSet (st : GSiSRIO) (db : Nat) : GSiSRIO :=
  { st with SRIODebounceAmount := db }

/-- Method `Init(_callback)`; the argument says whether the pointer passed is non-null. -/
def Init (st : GSiSRIO) (_callback : Bool) : Outcome :=
  ({ st with DIN_Callback := _callback },
   [ Event.pinMode st.pin_sck PinMode.OUTPUT,
     Event.pinMode st.pin_sh PinMode.OUTPUT,
     Event.pinMode st.pin_so PinMode.OUTPUT,
     Event.pinMode st.pin_si PinMode.INPUT,
     Event.digitalWrite st.pin_sh HIGH,
     Event.digitalWrite st.pin_sck HIGH,
     Event.digitalWrite st.pin_so HIGH ])

/-- The decrement and the confirmation test that end an iteration of the loop of
`CheckDINs` (source lines 187 to 195). -/
def settle (acc : Outcome) (pin : Nat) : Option Outcome := do
  let st := acc.1
  let c ← readAt st.SRIODebounceCounter pin
  let ctr ← if c > 0 then writeAt st.SRIODebounceCounter pin (c - 1)
            else some st.SRIODebounceCounter
  let st := { st with SRIODebounceCounter := ctr }
  let c ← readAt st.SRIODebounceCounter pin
  if c = 1 then
    let value ← DIN_PinGet st pin
    let old ← readAt st.SRDINStateOld pin
    if old = value then
      some (st, acc.2 ++ [Event.callback pin value])
    else
      some (st, acc.2)
  else
    some (st, acc.2)

/-- One iteration of the loop of `CheckDINs`, for one pin (source lines 173 to 195).
The branch for a threshold below 2 ends the iteration after the callback, as the
`continue` of the source does. -/
def checkPin (acc : Outcome) (pin : Nat) : Option Outcome := do
  let st := acc.1
  let value ← DIN_PinGet st pin
  let old ← readAt st.SRDINStateOld pin
  if old ≠ value then
    let olds ← writeAt st.SRDINStateOld pin value
    let st := { st with SRDINStateOld := olds }
    if st.SRIODebounceAmount < 2 then
      some (st, acc.2 ++ [Event.callback pin value])
    else
      let ctr ← writeAt st.SRIODebounceCounter pin ((st.SRIODebounceAmount + 1) % 256)
      settle ({ st with SRIODebounceCounter := ctr }, acc.2) pin
  else
    settle (st, acc.2) pin

/-- Method `CheckDINs()`: the loop over `pin = 0 .. SRNumberOfPins - 1`, appending to the
trace so far. -/
def CheckDINs (acc : Outcome) : Option Outcome :=
  (List.range acc.1.SRNumberOfPins).foldlM checkPin acc

/-- One iteration of the inner loop of `Run`: bit `bit` of register step `SR`.
The accumulator holds the trace so far and `datain`. -/
def shiftBit (st : GSiSRIO) (si : Nat → Nat) (SR : Nat) (acc : List Event × Nat) (bit : Nat) :
    Option (List Event × Nat) := do
  let b ← readAt st.SR595ByteSet (st.NumberOfShiftRegisters - 1 - SR)
  let datain := (acc.2 <<< 1) % 256
  let datain := if si (8 * SR + bit) = HIGH then datain ||| 1 else datain
  some (acc.1 ++ [ Event.digitalWrite st.pin_so ((b >>> bit) &&& 1),
                   Event.digitalRead st.pin_si,
                   Event.digitalWrite st.pin_sck HIGH,
                   Event.digitalWrite st.pin_sck LOW ], datain)

/-- One iteration of the outer loop of `Run`: register step `SR`. -/
def shiftRegister (si : Nat → Nat) (acc : Outcome) (SR : Nat) :
    Option Outcome := do
  let st := acc.1
  let r ← (List.range 8).foldlM (shiftBit st si SR) (acc.2, 0)
  let a ← writeAt st.SR165ByteSet SR r.2
  some ({ st with SR165ByteSet := a }, r.1)

/-- Method `Run()`: the new state and the trace of the calls made, in order. -/
def Run (st : GSiSRIO) (si : Nat → Nat) : Option Outcome := do
  let tr := [ Event.digitalWrite st.pin_sh LOW,
              Event.digitalWrite st.pin_sh HIGH,
              Event.digitalWrite st.pin_sck LOW ]
  let r ← (List.range st.NumberOfShiftRegisters).foldlM (shiftRegister si) (st, tr)
  if r.1.DIN_Callback then CheckDINs r else some r

/-! ## Observations on traces and on sequences of Runs -/

/-- The callback invocations recorded in a trace, in order, as `(pin, pin_value)`. -/
def callbacks (tr : List Event) : List (Nat × Nat) :=
  tr.filterMap fun e =>
    match e with
    | Event.callback pin v => some (pin, v)
    | _ => none

/-- The callback invocations for pin `p` recorded in a trace, in order. -/
def callbacksFor (p : Nat) (tr : List Event) : List (Nat × Nat) :=
  (callbacks tr).filter fun c => c.1 = p

/-- Whether an event is a call of `digitalWrite`. -/
def isWrite : Event → Bool
  | Event.digitalWrite _ _ => true
  | _ => false

/-- Whether an event is a call of `digitalRead`. -/
def isRead : Event → Bool
  | Event.digitalRead _ => true
  | _ => false

/-- Whether an event is an invocation of the callback. -/
def isCallback : Event → Bool
  | Event.callback _ _ => true
  | _ => false

/-- The caller's loop: the state after `k` consecutive calls of `Run`, where
`inp j` is the sample stream of the `j`-th call (counting from 0). -/
def runs (st : GSiSRIO) (inp : Nat → Nat → Nat) : Nat → Option GSiSRIO
  | 0 => some st
  | k + 1 => do
    let s ← runs st inp k
    let r ← Run s (inp k)
    some r.1

/-- The notifications for pin `p` delivered by the `j`-th Run of the loop. -/
def notifiedIn (st : GSiSRIO) (inp : Nat → Nat → Nat) (j p : Nat) : Option (List (Nat × Nat)) := do
  let s ← runs st inp j
  let r ← Run s (inp j)
  some (callbacksFor p r.2)

/-- The value of pin `p` sampled by the `j`-th Run of the loop: what `DIN_PinGet`
returns once that Run has refreshed the input bytes. -/
def sampledIn (st : GSiSRIO) (inp : Nat → Nat → Nat) (j p : Nat) : Option Nat := do
  let s ← runs st inp (j + 1)
  DIN_PinGet s p

/-- The countdown of pin `p` at the end of the `j`-th Run of the loop. -/
def countdownAfter (st : GSiSRIO) (inp : Nat → Nat → Nat) (j p : Nat) : Option Nat := do
  let s ← runs st inp (j + 1)
  readAt s.SRIODebounceCounter p

/-- All the notifications delivered by the `j`-th Run of the loop, in order. -/
def deliveredIn (st : GSiSRIO) (inp : Nat → Nat → Nat) (j : Nat) : Option (List (Nat × Nat)) := do
  let s ← runs st inp j
  let r ← Run s (inp j)
  some (callbacks r.2)

/-! ## Sequences of calls on an engine -/

/-- A call of one of the state-changing methods of the engine, with its arguments;
`run si` is a call of `Run` during which serial-in returns the samples `si`. -/
inductive Call where
  | numberSet (num : Nat)
  | debounceSet (db : Nat)
  | init (callback : Bool)
  | run (si : Nat → Nat)
  | srSet (SR byteSet : Nat)
  | pinSet (pin pin_value : Nat)

/-- Whether the register or pin index of a call lies within the arrays' capacity;
calls without an index argument are always in range. -/
def inRange : Call → Bool
  | Call.srSet SR _ => decide (SR < MAX_SRs)
  | Call.pinSet pin _ => decide (pin < MAX_SRs * 8)
  | _ => true

/-- The state after one call. -/
def perform (st : GSiSRIO) : Call → Option GSiSRIO
  | Call.numberSet num => some (SRIO_NumberSet st num)
  | Call.debounceSet db => some (DebounceSet st db)
  | Call.init callback => some (Init st callback).1
  | Call.run si => (Run st si).map fun r => r.1
  | Call.srSet SR byteSet => DOUT_SRSet st SR byteSet
  | Call.pinSet pin pin_value => DOUT_PinSet st pin pin_value

/-- The state after a sequence of calls, made in order. -/
def performAll (st : GSiSRIO) (calls : List Call) : Option GSiSRIO :=
  calls.foldlM perform st

/-! ## Well-formedness and closed forms of the loops -/

/-- One step of the accumulator `datain` of `Run`. -/
def datainStep (datain s : Nat) : Nat :=
  if s = HIGH then (datain <<< 1) % 256 ||| 1 else (datain <<< 1) % 256

/-- The byte accumulated by `Run` over the eight samples of register step `SR`. -/
def assemble (si : Nat → Nat) (SR : Nat) : Nat :=
  (List.range 8).foldl (fun d bit => datainStep d (si (8 * SR + bit))) 0

/-- The four GPIO calls of bit `bit` when the output byte is `b`. -/
def bitCalls (st : GSiSRIO) (b bit : Nat) : List Event :=
  [ Event.digitalWrite st.pin_so ((b >>> bit) &&& 1),
    Event.digitalRead st.pin_si,
    Event.digitalWrite st.pin_sck HIGH,
    Event.digitalWrite st.pin_sck LOW ]

/-- The output byte shifted out during register step `SR` (0 when out of range). -/
def outByte (st : GSiSRIO) (SR : Nat) : Nat :=
  (readAt st.SR595ByteSet (st.NumberOfShiftRegisters - 1 - SR)).getD 0

/-- The GPIO calls of register step `SR`. -/
def regCalls (st : GSiSRIO) (SR : Nat) : List Event :=
  (List.range 8).flatMap (bitCalls st (outByte st SR))

/-- The state after the first `k` register steps of `Run`. -/
def shifted (st : GSiSRIO) (si : Nat → Nat) (k : Nat) : GSiSRIO :=
  { st with SR165ByteSet := fun i => if i.val < k then assemble si i.val else st.SR165ByteSet i }

/-- The bit of pin `pin` in a byte vector (0 when out of range). -/
def pinBit (bytes : Fin MAX_SRs → Nat) (pin : Nat) : Nat :=
  ((readAt bytes (pin >>> 3)).getD 0 >>> (pin &&& 7)) &&& 1

/-- The countdown after the decrement of source lines 187 and 188. -/
def decr (c : Nat) : Nat := if c > 0 then c - 1 else c

/-- What one iteration of `CheckDINs` does to one pin, as a function of the
threshold, the stored stable value, the countdown and the sampled value: the new
stable value, the new countdown, and whether the callback is invoked. -/
def pinStep (amount old ctr value : Nat) : Nat × Nat × Bool :=
  if old ≠ value then
    if amount < 2 then (value, ctr, true)
    else (value, decr ((amount + 1) % 256), decide (decr ((amount + 1) % 256) = 1))
  else (old, decr ctr, decide (decr ctr = 1))

/-- The calls `CheckDINs` makes for one pin. -/
def pinCalls (amount old ctr value pin : Nat) : List Event :=
  if (pinStep amount old ctr value).2.2 then [Event.callback pin value] else []

/-- The state after `CheckDINs` has handled one pin. -/
def pinChecked (st : GSiSRIO) (p : Fin (MAX_SRs * 8)) : GSiSRIO :=
  { st with
    SRDINStateOld := Function.update st.SRDINStateOld p
      (pinStep st.SRIODebounceAmount (st.SRDINStateOld p) (st.SRIODebounceCounter p)
        (pinBit st.SR165ByteSet p)).1
    SRIODebounceCounter := Function.update st.SRIODebounceCounter p
      (pinStep st.SRIODebounceAmount (st.SRDINStateOld p) (st.SRIODebounceCounter p)
        (pinBit st.SR165ByteSet p)).2.1 }

/-- The pin step of `CheckDINs` for pin `i` in state `st`. -/
def stepOf (st : GSiSRIO) (i : Fin (MAX_SRs * 8)) : Nat × Nat × Bool :=
  pinStep st.SRIODebounceAmount (st.SRDINStateOld i) (st.SRIODebounceCounter i)
    (pinBit st.SR165ByteSet i)

/-- The state after `CheckDINs` has handled the pins below `k`. -/
def checked (st : GSiSRIO) (k : Nat) : GSiSRIO :=
  { st with
    SRDINStateOld := fun i => if i.val < k then (stepOf st i).1 else st.SRDINStateOld i
    SRIODebounceCounter := fun i =>
      if i.val < k then (stepOf st i).2.1 else st.SRIODebounceCounter i }

/-- The calls `CheckDINs` makes for pin `p` when started in state `st`. -/
def checkCalls (st : GSiSRIO) (p : Nat) : List Event :=
  if h : p < MAX_SRs * 8 then
    if (stepOf st ⟨p, h⟩).2.2 then [Event.callback p (pinBit st.SR165ByteSet p)] else []
  else []

/-- Well-formed configuration: the chain length is within the capacity of the
register arrays and the pin count is eight times the chain length.  The member
initialisers and `SRIO_NumberSet` establish it and no method changes it otherwise. -/
def Valid (st : GSiSRIO) : Prop :=
  st.NumberOfShiftRegisters ≤ MAX_SRs ∧ st.SRNumberOfPins = st.NumberOfShiftRegisters * 8

/-- The state in which a `Run` ends. -/
def ranState (st : GSiSRIO) (si : Nat → Nat) : GSiSRIO :=
  if st.DIN_Callback then checked (shifted st si st.NumberOfShiftRegisters) st.SRNumberOfPins
  else shifted st si st.NumberOfShiftRegisters

/-- The GPIO calls of a `Run`. -/
def ranGpio (st : GSiSRIO) : List Event :=
  [ Event.digitalWrite st.pin_sh LOW, Event.digitalWrite st.pin_sh HIGH,
    Event.digitalWrite st.pin_sck LOW ] ++
    (List.range st.NumberOfShiftRegisters).flatMap (regCalls st)

/-- The callback calls of a `Run`. -/
def ranCalls (st : GSiSRIO) (si : Nat → Nat) : List Event :=
  if st.DIN_Callback then
    (List.range st.SRNumberOfPins).flatMap
      (checkCalls (shifted st si st.NumberOfShiftRegisters))
  else []

/-- The notification `CheckDINs` delivers for pin `p` when started in state `st`. -/
def checkNotes (st : GSiSRIO) (p : Nat) : List (Nat × Nat) :=
  if h : p < MAX_SRs * 8 then
    if (stepOf st ⟨p, h⟩).2.2 then [(p, pinBit st.SR165ByteSet p)] else []
  else []

/-- The state after `k` Runs, in closed form. -/
def ranStates (st : GSiSRIO) (inp : Nat → Nat → Nat) : Nat → GSiSRIO
  | 0 => st
  | k + 1 => ranState (ranStates st inp k) (inp k)

/-- The value sampled for pin `p` by a Run from state `st` with sample stream `si`. -/
def sampleOf (st : GSiSRIO) (si : Nat → Nat) (p : Nat) : Nat :=
  pinBit (ranState st si).SR165ByteSet p

/-- The pin step a Run from state `st` applies to pin `p`. -/
def runStep (st : GSiSRIO) (si : Nat → Nat) (p : Fin (MAX_SRs * 8)) : Nat × Nat × Bool :=
  pinStep st.SRIODebounceAmount (st.SRDINStateOld p) (st.SRIODebounceCounter p) (sampleOf st si p)

/-! ## Concrete engines and sample streams -/

/-- An engine as a sketch sets it up: default wiring, `SRIO_NumberSet(n)`,
`DebounceSet(db)`, `Init` with a callback. -/
def engine (n db : Nat) : GSiSRIO :=
  (Init (DebounceSet (SRIO_NumberSet (construct 6 7 8 9) n) db) true).1

/-- Serial-in reads HIGH on every read of every Run. -/
def allHigh : Nat → Nat → Nat := fun _ _ => HIGH

/-- Serial-in reads LOW throughout Run 0 and HIGH on every read from Run 1 on. -/
def risesAfterFirst : Nat → Nat → Nat := fun j _ => if j = 0 then LOW else HIGH

/-- Serial-in reads LOW throughout Run 0; from Run 1 on the read with index 4 (the
bit of pin 3 in a one-register chain) is HIGH and every other read is LOW. -/
def bit3Rises : Nat → Nat → Nat := fun j k => if j = 0 then LOW else if k = 4 then HIGH else LOW

/-- Serial-in reads LOW on every read. -/
def allLow : Nat → Nat := fun _ => LOW

/-- Pin 3 of a one-register chain is sampled high in Runs 0 and 1 and low again
from Run 2 on. -/
def bit3Glitch : Nat → Nat → Nat := fun j k => if j < 2 ∧ k = 4 then HIGH else LOW

/-- Every serial-in read of the Run is HIGH. -/
def allHighRun : Nat → Nat := fun _ => HIGH

/-- Serial-in reads HIGH on every third read of the Run (reads 0, 3, 6, ...). -/
def everyThird : Nat → Nat := fun k => if k % 3 = 0 then HIGH else LOW

/-- The levels written to GPIO pin `pin` in a trace, in order. -/
def levelsWrittenTo (pin : Nat) (tr : List Event) : List Nat :=
  tr.filterMap fun e =>
    match e with
    | Event.digitalWrite q s => if q = pin then some s else none
    | _ => none

/-- Serial-in reads HIGH during the first eight reads of the Run and LOW afterwards. -/
def firstGroupHigh : Nat → Nat := fun k => if k < 8 then HIGH else LOW

/-- The four GPIO calls of the `k`-th bit step of a Run (`k` = 8 * SR + bit). -/
def stepCalls (st : GSiSRIO) (k : Nat) : List Event :=
  [ Event.digitalWrite st.pin_so ((outByte st (k / 8) >>> (k % 8)) &&& 1),
    Event.digitalRead st.pin_si,
    Event.digitalWrite st.pin_sck HIGH,
    Event.digitalWrite st.pin_sck LOW ]

/-- Output byte 0 holds 0b10100101 and output byte 1 holds 0b11111111. -/
def outputsLoaded : GSiSRIO :=
  { construct 6 7 8 9 with
    SR595ByteSet := fun i => if i.val = 0 then 165 else if i.val = 1 then 255 else 0 }

/-- A sketch that configures four registers, writes outputs at the highest in-range
indices, later asks for 200 registers (capped) and for 0 registers, and scans after
each of the three settings. -/
def sketch : List Call :=
  [ Call.numberSet 4, Call.debounceSet 255, Call.init true, Call.srSet 3 255,
    Call.pinSet 31 1, Call.run allHighRun, Call.numberSet 200, Call.run allLow,
    Call.numberSet 0, Call.run everyThird ]

/-! ## Lemmas on the embedding -/

theorem range8 : List.range 8 = [0, 1, 2, 3, 4, 5, 6, 7] := by decide

theorem readAt_lt {n : Nat} (a : Fin n → Nat) (i : Nat) (h : i < n) :
    readAt a i = some (a ⟨i, h⟩) := by
  simp [readAt, h]

theorem writeAt_lt {n : Nat} (a : Fin n → Nat) (i v : Nat) (h : i < n) :
    writeAt a i v = some (Function.update a ⟨i, h⟩ v) := by
  simp [writeAt, h]

theorem shiftBits_eq (st : GSiSRIO) (si : Nat → Nat) (SR : Nat) (tr : List Event)
    (h : st.NumberOfShiftRegisters - 1 - SR < MAX_SRs) :
    (List.range 8).foldlM (shiftBit st si SR) (tr, 0) =
      some (tr ++ (List.range 8).flatMap
              (bitCalls st (st.SR595ByteSet ⟨st.NumberOfShiftRegisters - 1 - SR, h⟩)),
            assemble si SR) := by
  simp [range8, shiftBit, readAt_lt _ _ h, assemble, datainStep, bitCalls, List.flatMap]

theorem shiftRegister_eq (st : GSiSRIO) (si : Nat → Nat) (SR : Nat) (tr : List Event)
    (hn : st.NumberOfShiftRegisters ≤ MAX_SRs) (hk : SR < st.NumberOfShiftRegisters) :
    shiftRegister si (shifted st si SR, tr) SR =
      some (shifted st si (SR + 1), tr ++ regCalls st SR) := by
  have h1 : st.NumberOfShiftRegisters - 1 - SR < MAX_SRs := by omega
  have h2 : SR < MAX_SRs := by omega
  have h3 : (shifted st si SR).NumberOfShiftRegisters - 1 - SR < MAX_SRs := h1
  unfold shiftRegister
  simp only [shiftBits_eq _ si SR tr h3, writeAt_lt _ _ _ h2]
  simp only [shifted, regCalls, outByte, readAt_lt _ _ h1, Option.getD_some, Option.bind_eq_bind,
    Option.some_bind]
  congr 2
  congr 1
  funext i
  by_cases hi : i = ⟨SR, h2⟩
  · subst hi
    simp
  · rw [Function.update_noteq hi]
    have : i.val ≠ SR := fun h => hi (Fin.ext h)
    by_cases h4 : i.val < SR
    · simp [h4, Nat.lt_succ_of_lt h4]
    · have : ¬ i.val < SR + 1 := by omega
      simp [h4, this]

theorem shiftRegs_eq (st : GSiSRIO) (si : Nat → Nat) (tr : List Event)
    (hn : st.NumberOfShiftRegisters ≤ MAX_SRs) (k : Nat) (hk : k ≤ st.NumberOfShiftRegisters) :
    (List.range k).foldlM (shiftRegister si) (st, tr) =
      some (shifted st si k, tr ++ (List.range k).flatMap (regCalls st)) := by
  induction k with
  | zero => simp [shifted]
  | succ k ih =>
    rw [List.range_succ, List.foldlM_append, ih (by omega)]
    simp [shiftRegister_eq st si k _ hn (by omega), List.flatMap_append]

theorem shift3_lt {p : Nat} (h : p < MAX_SRs * 8) : p >>> 3 < MAX_SRs := by
  simp only [MAX_SRs] at *
  rw [Nat.shiftRight_eq_div_pow]
  omega

theorem DIN_PinGet_lt (st : GSiSRIO) (p : Nat) (h : p < MAX_SRs * 8) :
    DIN_PinGet st p = some (pinBit st.SR165ByteSet p) := by
  simp [pinBit, DIN_PinGet, readAt_lt _ _ (shift3_lt h)]

theorem settle_eq (st : GSiSRIO) (tr : List Event) (p : Nat) (h : p < MAX_SRs * 8)
    (hold : st.SRDINStateOld ⟨p, h⟩ = pinBit st.SR165ByteSet p) :
    settle (st, tr) p =
      some ({ st with SRIODebounceCounter :=
                Function.update st.SRIODebounceCounter ⟨p, h⟩ (decr (st.SRIODebounceCounter ⟨p, h⟩)) },
        tr ++ if decr (st.SRIODebounceCounter ⟨p, h⟩) = 1
              then [Event.callback p (pinBit st.SR165ByteSet p)] else []) := by
  unfold settle
  simp only [readAt_lt _ _ h, writeAt_lt _ _ _ h, Option.bind_eq_bind, Option.some_bind]
  by_cases h0 : st.SRIODebounceCounter ⟨p, h⟩ > 0
  · simp only [h0, ↓reduceIte, Option.some_bind, readAt_lt _ _ h, Function.update_same,
      DIN_PinGet_lt _ _ h, hold, decr]
    split <;> simp
  · have h1 : ¬ st.SRIODebounceCounter ⟨p, h⟩ = 1 := by omega
    simp only [h0, ↓reduceIte, Option.some_bind, readAt_lt _ _ h, DIN_PinGet_lt _ _ h, hold, decr,
      h1, List.append_nil, Function.update_eq_self]

theorem checkPin_eq (st : GSiSRIO) (tr : List Event) (p : Nat) (h : p < MAX_SRs * 8) :
    checkPin (st, tr) p =
      some (pinChecked st ⟨p, h⟩,
        tr ++ pinCalls st.SRIODebounceAmount (st.SRDINStateOld ⟨p, h⟩)
          (st.SRIODebounceCounter ⟨p, h⟩) (pinBit st.SR165ByteSet p) p) := by
  unfold checkPin
  simp only [DIN_PinGet_lt _ _ h, readAt_lt _ _ h, writeAt_lt _ _ _ h, Option.bind_eq_bind,
    Option.some_bind]
  by_cases hc : st.SRDINStateOld ⟨p, h⟩ = pinBit st.SR165ByteSet p
  · simp only [hc, ne_eq, not_true_eq_false, ↓reduceIte]
    rw [settle_eq st tr p h hc]
    simp only [pinChecked, pinCalls, pinStep, hc, ne_eq, not_true_eq_false, ↓reduceIte,
      decide_eq_true_eq]
    rw [← hc, Function.update_eq_self]
  · simp only [hc, ne_eq, not_false_eq_true, ↓reduceIte]
    by_cases h2 : st.SRIODebounceAmount < 2
    · simp only [h2, ↓reduceIte, pinChecked, pinCalls, pinStep, hc, ne_eq, not_false_eq_true,
        Function.update_eq_self]
    · simp only [h2, ↓reduceIte]
      rw [settle_eq _ tr p h (by simp)]
      simp only [pinChecked, pinCalls, pinStep, hc, ne_eq, not_false_eq_true, ↓reduceIte, h2,
        Function.update_same, Function.update_idem, decide_eq_true_eq]

theorem checkPin_checked (st : GSiSRIO) (tr : List Event) (k : Nat) (h : k < MAX_SRs * 8) :
    checkPin (checked st k, tr) k = some (checked st (k + 1), tr ++ checkCalls st k) := by
  rw [checkPin_eq _ _ _ h]
  have hk : ¬ k < k := Nat.lt_irrefl k
  simp only [checked, pinChecked, pinCalls, checkCalls, h, stepOf, hk, ↓reduceIte, ↓reduceDIte]
  congr 2
  congr 1
  · funext i
    by_cases hi : i = ⟨k, h⟩
    · subst hi
      simp
    · rw [Function.update_noteq hi]
      have : i.val ≠ k := fun h => hi (Fin.ext h)
      by_cases h4 : i.val < k
      · simp [h4, Nat.lt_succ_of_lt h4]
      · have : ¬ i.val < k + 1 := by omega
        simp [h4, this]
  · funext i
    by_cases hi : i = ⟨k, h⟩
    · subst hi
      simp
    · rw [Function.update_noteq hi]
      have : i.val ≠ k := fun h => hi (Fin.ext h)
      by_cases h4 : i.val < k
      · simp [h4, Nat.lt_succ_of_lt h4]
      · have : ¬ i.val < k + 1 := by omega
        simp [h4, this]

theorem checkPins_eq (st : GSiSRIO) (tr : List Event) (k : Nat) (hk : k ≤ MAX_SRs * 8) :
    (List.range k).foldlM checkPin (st, tr) =
      some (checked st k, tr ++ (List.range k).flatMap (checkCalls st)) := by
  induction k with
  | zero => simp [checked]
  | succ k ih =>
    rw [List.range_succ, List.foldlM_append, ih (by omega)]
    simp [checkPin_checked st _ k (by omega), List.flatMap_append]

theorem Run_eq (st : GSiSRIO) (si : Nat → Nat) (hv : Valid st) :
    Run st si = some (ranState st si, ranGpio st ++ ranCalls st si) := by
  obtain ⟨hn, hp⟩ := hv
  unfold Run
  simp only [shiftRegs_eq st si _ hn _ (Nat.le_refl _), Option.bind_eq_bind, Option.some_bind]
  by_cases hc : st.DIN_Callback = true
  · have hc2 : (shifted st si st.NumberOfShiftRegisters).DIN_Callback = true := hc
    have hp2 : (shifted st si st.NumberOfShiftRegisters).SRNumberOfPins = st.SRNumberOfPins := rfl
    simp only [hc2, ↓reduceIte, CheckDINs, hp2]
    rw [checkPins_eq _ _ _ (by rw [hp]; omega)]
    simp [ranState, ranGpio, ranCalls, hc]
  · have hc2 : ¬ (shifted st si st.NumberOfShiftRegisters).DIN_Callback = true := hc
    simp [hc2, ranState, ranGpio, ranCalls, hc]

theorem callbacks_append (a b : List Event) : callbacks (a ++ b) = callbacks a ++ callbacks b := by
  simp [callbacks, List.filterMap_append]

theorem callbacks_flatMap (l : List Nat) (f : Nat → List Event) :
    callbacks (l.flatMap f) = l.flatMap fun p => callbacks (f p) := by
  induction l with
  | nil => simp [callbacks]
  | cons a l ih => simp [List.flatMap_cons, callbacks_append, ih]

theorem callbacks_regCalls (st : GSiSRIO) (SR : Nat) : callbacks (regCalls st SR) = [] := by
  simp [regCalls, range8, bitCalls, callbacks, List.flatMap]

theorem callbacks_ranGpio (st : GSiSRIO) : callbacks (ranGpio st) = [] := by
  have h3 : ∀ a b c : Event, isCallback a = false → isCallback b = false →
      isCallback c = false → callbacks [a, b, c] = [] := by
    intro a b c ha hb hc
    cases a <;> cases b <;> cases c <;> simp_all [callbacks, isCallback]
  rw [ranGpio, callbacks_append, callbacks_flatMap,
    h3 (Event.digitalWrite st.pin_sh LOW) (Event.digitalWrite st.pin_sh HIGH)
      (Event.digitalWrite st.pin_sck LOW) rfl rfl rfl]
  simp [callbacks_regCalls]

theorem callbacks_checkCalls (st : GSiSRIO) (p : Nat) :
    callbacks (checkCalls st p) = checkNotes st p := by
  unfold checkCalls checkNotes
  split
  · split <;> simp [callbacks]
  · simp [callbacks]

theorem checkNotes_pin (st : GSiSRIO) (p : Nat) : ∀ c ∈ checkNotes st p, c.1 = p := by
  intro c hc
  unfold checkNotes at hc
  split at hc
  · split at hc
    · simp at hc; simp [hc]
    · simp at hc
  · simp at hc

theorem checkNotes_length (st : GSiSRIO) (p : Nat) : (checkNotes st p).length ≤ 1 := by
  unfold checkNotes
  split
  · split <;> simp
  · simp

theorem filter_flatMap_range (f : Nat → List (Nat × Nat)) (hf : ∀ p, ∀ c ∈ f p, c.1 = p)
    (k q : Nat) :
    ((List.range k).flatMap f).filter (fun c => c.1 = q) = if q < k then f q else [] := by
  have hself : ∀ p, (f p).filter (fun c => decide (c.1 = p)) = f p := by
    intro p
    apply List.filter_eq_self.mpr
    intro c hc
    simp [hf p c hc]
  have hother : ∀ p, p ≠ q → (f p).filter (fun c => decide (c.1 = q)) = [] := by
    intro p hp
    apply List.filter_eq_nil_iff.mpr
    intro c hc
    simp [hf p c hc, hp]
  induction k with
  | zero => simp
  | succ k ih =>
    rw [List.range_succ, List.flatMap_append, List.filter_append, ih]
    simp only [List.flatMap_cons, List.flatMap_nil, List.append_nil]
    by_cases h1 : q < k
    · have : q < k + 1 := by omega
      simp [h1, this, hother k (by omega)]
    · by_cases h2 : q = k
      · subst h2
        simp [hself]
      · have : ¬ q < k + 1 := by omega
        simp [h1, this, hother k (fun h => h2 h.symm)]

theorem pairwise_flatMap_range (f : Nat → List (Nat × Nat)) (hf : ∀ p, ∀ c ∈ f p, c.1 = p)
    (hl : ∀ p, (f p).length ≤ 1) (k : Nat) :
    ((List.range k).flatMap f).Pairwise (fun a b => a.1 < b.1) := by
  induction k with
  | zero => simp
  | succ k ih =>
    rw [List.range_succ, List.flatMap_append, List.pairwise_append]
    refine ⟨ih, ?_, ?_⟩
    · simp only [List.flatMap_cons, List.flatMap_nil, List.append_nil]
      have := hl k
      match hfk : f k with
      | [] => simp
      | [a] => simp
      | a :: b :: l => rw [hfk] at this; simp at this
    · intro a ha b hb
      simp only [List.flatMap_cons, List.flatMap_nil, List.append_nil] at hb
      rw [List.mem_flatMap] at ha
      obtain ⟨p, hp, hap⟩ := ha
      rw [hf p a hap, hf k b hb]
      exact List.mem_range.mp hp

theorem ranState_config (st : GSiSRIO) (si : Nat → Nat) :
    (ranState st si).NumberOfShiftRegisters = st.NumberOfShiftRegisters ∧
    (ranState st si).SRNumberOfPins = st.SRNumberOfPins ∧
    (ranState st si).SRIODebounceAmount = st.SRIODebounceAmount ∧
    (ranState st si).DIN_Callback = st.DIN_Callback ∧
    (ranState st si).SR595ByteSet = st.SR595ByteSet := by
  unfold ranState
  split <;> simp [checked, shifted]

theorem ranState_bytes (st : GSiSRIO) (si : Nat → Nat) :
    (ranState st si).SR165ByteSet = (shifted st si st.NumberOfShiftRegisters).SR165ByteSet := by
  unfold ranState
  split <;> simp [checked]

theorem Valid_ranState (st : GSiSRIO) (si : Nat → Nat) (hv : Valid st) : Valid (ranState st si) := by
  obtain ⟨h1, h2, _⟩ := ranState_config st si
  unfold Valid at *
  rw [h1, h2]
  exact hv

theorem ranStates_config (st : GSiSRIO) (inp : Nat → Nat → Nat) (k : Nat) :
    (ranStates st inp k).NumberOfShiftRegisters = st.NumberOfShiftRegisters ∧
    (ranStates st inp k).SRNumberOfPins = st.SRNumberOfPins ∧
    (ranStates st inp k).SRIODebounceAmount = st.SRIODebounceAmount ∧
    (ranStates st inp k).DIN_Callback = st.DIN_Callback ∧
    (ranStates st inp k).SR595ByteSet = st.SR595ByteSet := by
  induction k with
  | zero => simp [ranStates]
  | succ k ih =>
    obtain ⟨h1, h2, h3, h4, h5⟩ := ranState_config (ranStates st inp k) (inp k)
    obtain ⟨i1, i2, i3, i4, i5⟩ := ih
    simp only [ranStates]
    exact ⟨h1.trans i1, h2.trans i2, h3.trans i3, h4.trans i4, h5.trans i5⟩

theorem Valid_ranStates (st : GSiSRIO) (inp : Nat → Nat → Nat) (hv : Valid st) (k : Nat) :
    Valid (ranStates st inp k) := by
  induction k with
  | zero => exact hv
  | succ k ih => exact Valid_ranState _ _ ih

theorem runs_eq (st : GSiSRIO) (inp : Nat → Nat → Nat) (hv : Valid st) (k : Nat) :
    runs st inp k = some (ranStates st inp k) := by
  induction k with
  | zero => rfl
  | succ k ih =>
    simp [runs, ih, Run_eq _ _ (Valid_ranStates st inp hv k), ranStates]

theorem ranStates_add (st : GSiSRIO) (inp : Nat → Nat → Nat) (k j : Nat) :
    ranStates st inp (k + j) = ranStates (ranStates st inp k) (fun i => inp (k + i)) j := by
  induction j with
  | zero => rfl
  | succ j ih =>
    rw [← Nat.add_assoc]
    simp only [ranStates, ih]

theorem pins_le {st : GSiSRIO} (hv : Valid st) : st.SRNumberOfPins ≤ MAX_SRs * 8 := by
  obtain ⟨h1, h2⟩ := hv
  rw [h2]
  exact Nat.mul_le_mul_right 8 h1

theorem callbacks_ran (st : GSiSRIO) (si : Nat → Nat) :
    callbacks (ranGpio st ++ ranCalls st si) =
      if st.DIN_Callback then
        (List.range st.SRNumberOfPins).flatMap
          (checkNotes (shifted st si st.NumberOfShiftRegisters))
      else [] := by
  rw [callbacks_append, callbacks_ranGpio, List.nil_append]
  unfold ranCalls
  split
  · rw [callbacks_flatMap]
    simp only [callbacks_checkCalls]
  · simp [callbacks]

theorem callbacksFor_ran (st : GSiSRIO) (si : Nat → Nat) (p : Nat)
    (hc : st.DIN_Callback = true) (hp : p < st.SRNumberOfPins) :
    callbacksFor p (ranGpio st ++ ranCalls st si) =
      checkNotes (shifted st si st.NumberOfShiftRegisters) p := by
  unfold callbacksFor
  rw [callbacks_ran, if_pos hc, filter_flatMap_range _ (checkNotes_pin _), if_pos hp]

theorem stepOf_shifted (st : GSiSRIO) (si : Nat → Nat) (p : Fin (MAX_SRs * 8)) :
    stepOf (shifted st si st.NumberOfShiftRegisters) p = runStep st si p := by
  simp [stepOf, runStep, sampleOf, ranState_bytes, shifted]

theorem ranState_pin (st : GSiSRIO) (si : Nat → Nat) (p : Nat) (h : p < MAX_SRs * 8)
    (hc : st.DIN_Callback = true) (hp : p < st.SRNumberOfPins) :
    (ranState st si).SRDINStateOld ⟨p, h⟩ = (runStep st si ⟨p, h⟩).1 ∧
    (ranState st si).SRIODebounceCounter ⟨p, h⟩ = (runStep st si ⟨p, h⟩).2.1 ∧
    callbacksFor p (ranGpio st ++ ranCalls st si) =
      if (runStep st si ⟨p, h⟩).2.2 then [(p, sampleOf st si p)] else [] := by
  have hp2 : p < (shifted st si st.NumberOfShiftRegisters).SRNumberOfPins := hp
  refine ⟨?_, ?_, ?_⟩
  · simp only [ranState, hc, ↓reduceIte, checked, hp, stepOf_shifted]
  · simp only [ranState, hc, ↓reduceIte, checked, hp, stepOf_shifted]
  · rw [callbacksFor_ran st si p hc hp]
    simp only [checkNotes, h, ↓reduceDIte, stepOf_shifted, sampleOf, ranState_bytes]

theorem notifiedIn_eq (st : GSiSRIO) (inp : Nat → Nat → Nat) (hv : Valid st) (j p : Nat) :
    notifiedIn st inp j p =
      some (callbacksFor p (ranGpio (ranStates st inp j) ++ ranCalls (ranStates st inp j) (inp j))) := by
  simp [notifiedIn, runs_eq st inp hv, Run_eq _ _ (Valid_ranStates st inp hv j)]

theorem sampledIn_eq (st : GSiSRIO) (inp : Nat → Nat → Nat) (hv : Valid st) (j p : Nat)
    (h : p < MAX_SRs * 8) :
    sampledIn st inp j p = some (sampleOf (ranStates st inp j) (inp j) p) := by
  simp [sampledIn, runs_eq st inp hv, DIN_PinGet_lt _ _ h, ranStates, sampleOf]

theorem countdownAfter_eq (st : GSiSRIO) (inp : Nat → Nat → Nat) (hv : Valid st) (j p : Nat)
    (h : p < MAX_SRs * 8) :
    countdownAfter st inp j p = some ((ranStates st inp (j + 1)).SRIODebounceCounter ⟨p, h⟩) := by
  simp [countdownAfter, runs_eq st inp hv, readAt_lt _ _ h]

theorem pinStep_fst (amount old ctr value : Nat) : (pinStep amount old ctr value).1 = value := by
  unfold pinStep
  split
  · split <;> rfl
  · rename_i h
    simp at h
    simp [h]

theorem pinStep_same (amount ctr value : Nat) :
    pinStep amount value ctr value = (value, decr ctr, decide (decr ctr = 1)) := by
  simp [pinStep]

theorem pinStep_armed (amount old ctr value : Nat) (h : old ≠ value) (h2 : 2 ≤ amount) :
    pinStep amount old ctr value =
      (value, decr ((amount + 1) % 256), decide (decr ((amount + 1) % 256) = 1)) := by
  have : ¬ amount < 2 := by omega
  simp [pinStep, h, this]

theorem pinStep_immediate (amount old ctr value : Nat) (h : old ≠ value) (h2 : amount < 2) :
    pinStep amount old ctr value = (value, ctr, true) := by
  simp [pinStep, h, h2]

theorem pinStep_fired (amount old ctr value : Nat) (h2 : 2 ≤ amount) :
    (pinStep amount old ctr value).2.2 = decide ((pinStep amount old ctr value).2.1 = 1) := by
  by_cases h : old = value
  · subst h
    rw [pinStep_same]
  · rw [pinStep_armed _ _ _ _ h h2]

theorem window (st : GSiSRIO) (inp : Nat → Nat → Nat) (p : Nat) (h : p < MAX_SRs * 8)
    (hc : st.DIN_Callback = true) (hp : p < st.SRNumberOfPins)
    (h2 : 2 ≤ st.SRIODebounceAmount) (h254 : st.SRIODebounceAmount ≤ 254) (v : Nat)
    (hch : st.SRDINStateOld ⟨p, h⟩ ≠ v) (L : Nat)
    (hs : ∀ j < L, sampleOf (ranStates st inp j) (inp j) p = v) :
    ∀ j < L,
      (ranStates st inp (j + 1)).SRDINStateOld ⟨p, h⟩ = v ∧
      (ranStates st inp (j + 1)).SRIODebounceCounter ⟨p, h⟩ = st.SRIODebounceAmount - j ∧
      callbacksFor p (ranGpio (ranStates st inp j) ++ ranCalls (ranStates st inp j) (inp j)) =
        if j = st.SRIODebounceAmount - 1 then [(p, v)] else [] := by
  intro j
  induction j with
  | zero =>
    intro hj
    obtain ⟨e1, e2, e3⟩ := ranState_pin st (inp 0) p h hc hp
    have hs0 := hs 0 hj
    simp only [ranStates] at hs0 ⊢
    have hstep : runStep st (inp 0) ⟨p, h⟩ =
        (v, st.SRIODebounceAmount, false) := by
      unfold runStep
      rw [hs0, pinStep_armed _ _ _ _ hch h2]
      have hm : (st.SRIODebounceAmount + 1) % 256 = st.SRIODebounceAmount + 1 := by omega
      have hd : decr (st.SRIODebounceAmount + 1) = st.SRIODebounceAmount := by simp [decr]
      rw [hm, hd]
      have : ¬ st.SRIODebounceAmount = 1 := by omega
      simp [this]
    rw [e1, e2, e3, hstep, hs0]
    have : ¬ 0 = st.SRIODebounceAmount - 1 := by omega
    simp [this]
  | succ j ih =>
    intro hj
    obtain ⟨i1, i2, _⟩ := ih (by omega)
    obtain ⟨c1, c2, c3, c4, _⟩ := ranStates_config st inp (j + 1)
    obtain ⟨e1, e2, e3⟩ := ranState_pin (ranStates st inp (j + 1)) (inp (j + 1)) p h
      (c4.trans hc) (by rw [c2]; exact hp)
    have hsj := hs (j + 1) hj
    have hstep : runStep (ranStates st inp (j + 1)) (inp (j + 1)) ⟨p, h⟩ =
        (v, st.SRIODebounceAmount - (j + 1),
          decide (st.SRIODebounceAmount - (j + 1) = 1)) := by
      unfold runStep
      rw [hsj, i1, i2, c3, pinStep_same]
      have hd : decr (st.SRIODebounceAmount - j) = st.SRIODebounceAmount - (j + 1) := by
        unfold decr
        split <;> omega
      rw [hd]
    show (ranState (ranStates st inp (j + 1)) (inp (j + 1))).SRDINStateOld ⟨p, h⟩ = v ∧
      (ranState (ranStates st inp (j + 1)) (inp (j + 1))).SRIODebounceCounter ⟨p, h⟩ =
        st.SRIODebounceAmount - (j + 1) ∧ _
    rw [e1, e2, e3, hstep, hsj]
    refine ⟨rfl, rfl, ?_⟩
    by_cases hk : j + 1 = st.SRIODebounceAmount - 1
    · have : st.SRIODebounceAmount - (j + 1) = 1 := by omega
      rw [if_pos hk, this]
      simp
    · have : ¬ st.SRIODebounceAmount - (j + 1) = 1 := by omega
      rw [if_neg hk]
      simp [this]

theorem Valid_engine (n db : Nat) : Valid (engine n db) := by
  unfold Valid engine Init DebounceSet SRIO_NumberSet
  simp only [MAX_SRs]
  split <;> constructor <;> omega

theorem wrapped (st : GSiSRIO) (inp : Nat → Nat → Nat) (p : Nat) (h : p < MAX_SRs * 8)
    (hc : st.DIN_Callback = true) (hp : p < st.SRNumberOfPins)
    (hN : st.SRIODebounceAmount = 255) (h0 : st.SRIODebounceCounter ⟨p, h⟩ = 0) :
    ∀ j,
      (ranStates st inp j).SRIODebounceCounter ⟨p, h⟩ = 0 ∧
      callbacksFor p (ranGpio (ranStates st inp j) ++ ranCalls (ranStates st inp j) (inp j)) = [] := by
  have key : ∀ s : GSiSRIO, ∀ si : Nat → Nat, s.SRIODebounceAmount = 255 →
      s.SRIODebounceCounter ⟨p, h⟩ = 0 → (runStep s si ⟨p, h⟩).2 = (0, false) := by
    intro s si hs hz
    unfold runStep
    rw [hs, hz]
    unfold pinStep
    split <;> simp [decr]
  intro j
  induction j with
  | zero =>
    obtain ⟨_, _, e3⟩ := ranState_pin st (inp 0) p h hc hp
    have := key st (inp 0) hN h0
    refine ⟨h0, ?_⟩
    simp only [ranStates]
    rw [e3]
    simp [this]
  | succ j ih =>
    obtain ⟨_, c2, c3, c4, _⟩ := ranStates_config st inp j
    obtain ⟨_, d2, d3, d4, _⟩ := ranStates_config st inp (j + 1)
    obtain ⟨_, e2, _⟩ := ranState_pin (ranStates st inp j) (inp j) p h (c4.trans hc)
      (by rw [c2]; exact hp)
    obtain ⟨_, _, f3⟩ := ranState_pin (ranStates st inp (j + 1)) (inp (j + 1)) p h (d4.trans hc)
      (by rw [d2]; exact hp)
    have k1 := key (ranStates st inp j) (inp j) (c3.trans hN) ih.1
    have z : (ranStates st inp (j + 1)).SRIODebounceCounter ⟨p, h⟩ = 0 := by
      show (ranState (ranStates st inp j) (inp j)).SRIODebounceCounter ⟨p, h⟩ = 0
      rw [e2]
      simp [k1]
    have k2 := key (ranStates st inp (j + 1)) (inp (j + 1)) (d3.trans hN) z
    refine ⟨z, ?_⟩
    rw [f3]
    simp [k2]

theorem and7_lt (p : Nat) : p &&& 7 < 8 := by
  have : p &&& 7 = p % 8 := Nat.and_pow_two_sub_one_eq_mod p 3
  omega

theorem sampleOf_eq (st : GSiSRIO) (si : Nat → Nat) (p : Nat) (hv : Valid st)
    (hp : p < st.SRNumberOfPins) :
    sampleOf st si p = (assemble si (p >>> 3) >>> (p &&& 7)) &&& 1 := by
  obtain ⟨h1, h2⟩ := hv
  have h3 : p >>> 3 < st.NumberOfShiftRegisters := by
    rw [Nat.shiftRight_eq_div_pow]
    omega
  have h4 : p >>> 3 < MAX_SRs := by omega
  simp [sampleOf, ranState_bytes, pinBit, shifted, readAt_lt _ _ h4, h3]

theorem readAt_ne_some {n : Nat} (a : Fin n → Nat) (i v : Nat) (h : i < n)
    (hne : readAt a i ≠ some v) : a ⟨i, h⟩ ≠ v := by
  intro heq
  apply hne
  rw [readAt_lt a i h, heq]

theorem sampleOf_of_sampledIn (st : GSiSRIO) (inp : Nat → Nat → Nat) (hv : Valid st) (j p v : Nat)
    (h : p < MAX_SRs * 8) (hs : sampledIn st inp j p = some v) :
    sampleOf (ranStates st inp j) (inp j) p = v := by
  rw [sampledIn_eq st inp hv j p h] at hs
  exact Option.some.inj hs

theorem ranStates_old (st : GSiSRIO) (inp : Nat → Nat → Nat) (p : Nat) (h : p < MAX_SRs * 8)
    (hc : st.DIN_Callback = true) (hp : p < st.SRNumberOfPins) (j : Nat) :
    (ranStates st inp (j + 1)).SRDINStateOld ⟨p, h⟩ = sampleOf (ranStates st inp j) (inp j) p := by
  obtain ⟨_, c2, _, c4, _⟩ := ranStates_config st inp j
  obtain ⟨e1, _, _⟩ := ranState_pin (ranStates st inp j) (inp j) p h (c4.trans hc)
    (by rw [c2]; exact hp)
  show (ranState (ranStates st inp j) (inp j)).SRDINStateOld ⟨p, h⟩ = _
  rw [e1]
  exact pinStep_fst _ _ _ _

theorem pinBit_le_one (bytes : Fin MAX_SRs → Nat) (p : Nat) : pinBit bytes p ≤ 1 := by
  unfold pinBit
  exact Nat.and_le_right

theorem checkNotes_mem (st : GSiSRIO) (p : Nat) (c : Nat × Nat) (hc : c ∈ checkNotes st p) :
    p < MAX_SRs * 8 ∧ c = (p, pinBit st.SR165ByteSet p) := by
  unfold checkNotes at hc
  split at hc
  · rename_i h
    split at hc
    · simp at hc
      exact ⟨h, hc⟩
    · simp at hc
  · simp at hc

theorem assemble_levels (si : Nat → Nat) (j : Nat)
    (hs : ∀ i < 8, si (8 * j + i) = LOW ∨ si (8 * j + i) = HIGH) :
    assemble si j =
      si (8 * j) * 128 + si (8 * j + 1) * 64 + si (8 * j + 2) * 32 + si (8 * j + 3) * 16 +
        si (8 * j + 4) * 8 + si (8 * j + 5) * 4 + si (8 * j + 6) * 2 + si (8 * j + 7) := by
  have h0 := hs 0 (by decide)
  have h1 := hs 1 (by decide)
  have h2 := hs 2 (by decide)
  have h3 := hs 3 (by decide)
  have h4 := hs 4 (by decide)
  have h5 := hs 5 (by decide)
  have h6 := hs 6 (by decide)
  have h7 := hs 7 (by decide)
  simp only [Nat.add_zero] at h0
  simp only [assemble, range8, List.foldl_cons, List.foldl_nil, Nat.add_zero]
  rcases h0 with h0 | h0 <;> rcases h1 with h1 | h1 <;> rcases h2 with h2 | h2 <;>
    rcases h3 with h3 | h3 <;> rcases h4 with h4 | h4 <;> rcases h5 with h5 | h5 <;>
    rcases h6 with h6 | h6 <;> rcases h7 with h7 | h7 <;>
    rw [h0, h1, h2, h3, h4, h5, h6, h7] <;> decide

theorem ranState_byte (st : GSiSRIO) (si : Nat → Nat) (j : Nat) (hv : Valid st)
    (hj : j < st.NumberOfShiftRegisters) :
    readAt (ranState st si).SR165ByteSet j = some (assemble si j) := by
  have h4 : j < MAX_SRs := Nat.lt_of_lt_of_le hj hv.1
  rw [readAt_lt _ _ h4, ranState_bytes]
  simp [shifted, hj]

theorem flatMap_range_mul {α : Type} (f : Nat → Nat → List α) (n : Nat) :
    (List.range n).flatMap (fun a => (List.range 8).flatMap (f a)) =
      (List.range (8 * n)).flatMap (fun k => f (k / 8) (k % 8)) := by
  induction n with
  | zero => simp
  | succ n ih =>
    have hr : List.range (8 * (n + 1)) = List.range (8 * n) ++ (List.range 8).map (8 * n + ·) := by
      rw [Nat.mul_succ, List.range_add]
    rw [List.range_succ, List.flatMap_append, ih, hr, List.flatMap_append]
    congr 1
    simp only [List.flatMap_cons, List.flatMap_nil, List.append_nil, range8, List.map_cons,
      List.map_nil]
    have d : ∀ b, b < 8 → (8 * n + b) / 8 = n ∧ (8 * n + b) % 8 = b := by
      intro b hb
      omega
    rw [(d 0 (by decide)).1, (d 0 (by decide)).2, (d 1 (by decide)).1, (d 1 (by decide)).2,
      (d 2 (by decide)).1, (d 2 (by decide)).2, (d 3 (by decide)).1, (d 3 (by decide)).2,
      (d 4 (by decide)).1, (d 4 (by decide)).2, (d 5 (by decide)).1, (d 5 (by decide)).2,
      (d 6 (by decide)).1, (d 6 (by decide)).2, (d 7 (by decide)).1, (d 7 (by decide)).2]

theorem ranGpio_eq (st : GSiSRIO) :
    ranGpio st =
      [ Event.digitalWrite st.pin_sh LOW, Event.digitalWrite st.pin_sh HIGH,
        Event.digitalWrite st.pin_sck LOW ] ++
      (List.range (8 * st.NumberOfShiftRegisters)).flatMap fun k =>
        [ Event.digitalWrite st.pin_so ((outByte st (k / 8) >>> (k % 8)) &&& 1),
          Event.digitalRead st.pin_si,
          Event.digitalWrite st.pin_sck HIGH,
          Event.digitalWrite st.pin_sck LOW ] := by
  unfold ranGpio
  congr 1
  have := flatMap_range_mul (fun a b => bitCalls st (outByte st a) b) st.NumberOfShiftRegisters
  simp only [regCalls, bitCalls] at this ⊢
  exact this

theorem ranCalls_callbacks (st : GSiSRIO) (si : Nat → Nat) :
    ∀ e ∈ ranCalls st si, isCallback e = true := by
  intro e he
  unfold ranCalls at he
  split at he
  · rw [List.mem_flatMap] at he
    obtain ⟨p, _, hp⟩ := he
    unfold checkCalls at hp
    split at hp
    · split at hp
      · simp at hp
        rw [hp]
        rfl
      · simp at hp
    · simp at hp
  · simp at he

theorem countP_flatMap_const {α : Type} (q : α → Bool) (g : Nat → List α) (c : Nat)
    (hg : ∀ k, (g k).countP q = c) (l : List Nat) :
    (l.flatMap g).countP q = c * l.length := by
  induction l with
  | nil => simp
  | cons a l ih =>
    rw [List.flatMap_cons, List.countP_append, ih, hg a, List.length_cons]
    ring

theorem countP_zero_of_callbacks (q : Event → Bool) (hq : ∀ p v, q (Event.callback p v) = false)
    (l : List Event) (hl : ∀ e ∈ l, isCallback e = true) : l.countP q = 0 := by
  rw [List.countP_eq_zero]
  intro e he
  have := hl e he
  cases e <;> simp_all [isCallback]

theorem shiftAnd_eq_testBit (x i : Nat) : (x >>> i) &&& 1 = (x.testBit i).toNat := by
  rw [Nat.toNat_testBit, Nat.shiftRight_eq_div_pow, Nat.and_one_is_mod]

theorem setBit_reads_one (b i : Nat) (hi : i < 8) : (((b ||| (1 <<< i)) % 256) >>> i) &&& 1 = 1 := by
  rw [shiftAnd_eq_testBit]
  have : (256 : Nat) = 2 ^ 8 := by norm_num
  rw [this, Nat.testBit_mod_two_pow, Nat.testBit_or, Nat.one_shiftLeft, Nat.testBit_two_pow_self]
  simp [hi]

theorem clearBit_reads_zero (b i : Nat) (hi : i < 8) :
    (((b &&& (255 ^^^ (1 <<< i))) % 256) >>> i) &&& 1 = 0 := by
  rw [shiftAnd_eq_testBit]
  have h256 : (256 : Nat) = 2 ^ 8 := by norm_num
  have h255 : (255 : Nat).testBit i = true := by
    interval_cases i <;> decide
  rw [h256, Nat.testBit_mod_two_pow, Nat.testBit_and, Nat.testBit_xor, Nat.one_shiftLeft,
    Nat.testBit_two_pow_self, h255]
  simp

theorem length_flatMap_const {α : Type} (g : Nat → List α) (c : Nat)
    (hg : ∀ k, (g k).length = c) (l : List Nat) : (l.flatMap g).length = c * l.length := by
  induction l with
  | nil => simp
  | cons a l ih =>
    rw [List.flatMap_cons, List.length_append, ih, hg a, List.length_cons]
    ring

theorem getElem?_flatMap_blocks {α : Type} (g : Nat → List α) (hg : ∀ k, (g k).length = 4)
    (m k i : Nat) (hk : k < m) (hi : i < 4) :
    ((List.range m).flatMap g)[4 * k + i]? = (g k)[i]? := by
  induction m with
  | zero => omega
  | succ m ih =>
    rw [List.range_succ, List.flatMap_append]
    have hlen : ((List.range m).flatMap g).length = 4 * m := by
      rw [length_flatMap_const g 4 hg, List.length_range]
    by_cases hkm : k < m
    · rw [List.getElem?_append_left (by rw [hlen]; omega)]
      exact ih hkm
    · have hkm2 : k = m := by omega
      subst hkm2
      rw [List.getElem?_append_right (by rw [hlen]; omega), hlen]
      simp only [List.flatMap_cons, List.flatMap_nil, List.append_nil]
      congr 1
      omega

theorem outByte_lt (st : GSiSRIO) (j : Nat) (hv : Valid st) (hj : j < st.NumberOfShiftRegisters) :
    readAt st.SR595ByteSet (st.NumberOfShiftRegisters - 1 - j) = some (outByte st j) := by
  have h : st.NumberOfShiftRegisters - 1 - j < MAX_SRs := by
    have := hv.1
    omega
  simp [outByte, readAt_lt _ _ h]

theorem ranGpio_steps (st : GSiSRIO) :
    ranGpio st =
      [ Event.digitalWrite st.pin_sh LOW, Event.digitalWrite st.pin_sh HIGH,
        Event.digitalWrite st.pin_sck LOW ] ++
      (List.range (8 * st.NumberOfShiftRegisters)).flatMap (stepCalls st) :=
  ranGpio_eq st

theorem ranGpio_length (st : GSiSRIO) :
    (ranGpio st).length = 3 + 4 * (8 * st.NumberOfShiftRegisters) := by
  rw [ranGpio_steps, List.length_append, length_flatMap_const (stepCalls st) 4 (fun _ => rfl),
    List.length_range]
  rfl

theorem ranGpio_writes (st : GSiSRIO) :
    (ranGpio st).countP isWrite = 3 + 24 * st.NumberOfShiftRegisters := by
  rw [ranGpio_steps, List.countP_append,
    countP_flatMap_const isWrite (stepCalls st) 3 (fun _ => rfl), List.length_range]
  have : List.countP isWrite [Event.digitalWrite st.pin_sh LOW,
      Event.digitalWrite st.pin_sh HIGH, Event.digitalWrite st.pin_sck LOW] = 3 := rfl
  rw [this]
  omega

theorem ranGpio_reads (st : GSiSRIO) :
    (ranGpio st).countP isRead = 8 * st.NumberOfShiftRegisters := by
  rw [ranGpio_steps, List.countP_append,
    countP_flatMap_const isRead (stepCalls st) 1 (fun _ => rfl), List.length_range]
  have : List.countP isRead [Event.digitalWrite st.pin_sh LOW,
      Event.digitalWrite st.pin_sh HIGH, Event.digitalWrite st.pin_sck LOW] = 0 := rfl
  rw [this]
  omega

theorem ranTrace_getElem (st : GSiSRIO) (si : Nat → Nat) (k : Nat)
    (hk : k < 8 * st.NumberOfShiftRegisters) :
    (ranGpio st ++ ranCalls st si)[3 + 4 * k]? =
      some (Event.digitalWrite st.pin_so ((outByte st (k / 8) >>> (k % 8)) &&& 1)) := by
  rw [List.getElem?_append_left (by rw [ranGpio_length]; omega), ranGpio_steps,
    List.getElem?_append_right (by simp)]
  have : 3 + 4 * k - [Event.digitalWrite st.pin_sh LOW, Event.digitalWrite st.pin_sh HIGH,
      Event.digitalWrite st.pin_sck LOW].length = 4 * k + 0 := by
    simp
  rw [this, getElem?_flatMap_blocks (stepCalls st) (fun _ => rfl) _ k 0 hk (by decide)]
  rfl

theorem pin_split (r i : Nat) (hi : i < 8) : (8 * r + i) >>> 3 = r ∧ (8 * r + i) &&& 7 = i := by
  have h7 : (8 * r + i) &&& 7 = (8 * r + i) % 8 := Nat.and_pow_two_sub_one_eq_mod (8 * r + i) 3
  rw [h7, Nat.shiftRight_eq_div_pow]
  constructor <;> omega

theorem setBit_other (b i j : Nat) (hj : j < 8) (hij : j ≠ i) :
    (((b ||| (1 <<< i)) % 256) >>> j) &&& 1 = (b >>> j) &&& 1 := by
  rw [shiftAnd_eq_testBit, shiftAnd_eq_testBit]
  have : (256 : Nat) = 2 ^ 8 := by norm_num
  rw [this, Nat.testBit_mod_two_pow, Nat.testBit_or, Nat.one_shiftLeft, Nat.testBit_two_pow]
  have : ¬ i = j := fun h => hij h.symm
  simp [hj, this]

theorem clearBit_other (b i j : Nat) (hj : j < 8) (hij : j ≠ i) :
    (((b &&& (255 ^^^ (1 <<< i))) % 256) >>> j) &&& 1 = (b >>> j) &&& 1 := by
  rw [shiftAnd_eq_testBit, shiftAnd_eq_testBit]
  have h256 : (256 : Nat) = 2 ^ 8 := by norm_num
  have h255 : (255 : Nat).testBit j = true := by
    interval_cases j <;> decide
  rw [h256, Nat.testBit_mod_two_pow, Nat.testBit_and, Nat.testBit_xor, Nat.one_shiftLeft,
    Nat.testBit_two_pow, h255]
  have : ¬ i = j := fun h => hij h.symm
  simp [hj, this]

theorem pin_eq_of_parts (p q : Nat) (h3 : q >>> 3 = p >>> 3) (h7 : q &&& 7 = p &&& 7) : q = p := by
  have a : q &&& 7 = q % 8 := Nat.and_pow_two_sub_one_eq_mod q 3
  have b : p &&& 7 = p % 8 := Nat.and_pow_two_sub_one_eq_mod p 3
  rw [Nat.shiftRight_eq_div_pow, Nat.shiftRight_eq_div_pow] at h3
  omega

theorem DOUT_PinSet_eq (st : GSiSRIO) (p v : Nat) (hp : p < MAX_SRs * 8) :
    DOUT_PinSet st p v =
      some { st with
        SR595ByteSet := (Function.update st.SR595ByteSet ⟨p >>> 3, shift3_lt hp⟩
          (if v > 0 then (st.SR595ByteSet ⟨p >>> 3, shift3_lt hp⟩ ||| (1 <<< (p &&& 7))) % 256
           else (st.SR595ByteSet ⟨p >>> 3, shift3_lt hp⟩ &&& (255 ^^^ (1 <<< (p &&& 7)))) % 256)) } := by
  have h3 := shift3_lt hp
  by_cases hv : v > 0
  · simp [DOUT_PinSet, readAt_lt _ _ h3, writeAt_lt _ _ _ h3, hv]
  · simp [DOUT_PinSet, readAt_lt _ _ h3, writeAt_lt _ _ _ h3, hv]

theorem Run_eq_plain (st : GSiSRIO) (si : Nat → Nat) (hn : st.NumberOfShiftRegisters ≤ MAX_SRs)
    (hc : st.DIN_Callback = false) :
    Run st si = some (shifted st si st.NumberOfShiftRegisters, ranGpio st) := by
  unfold Run
  simp only [shiftRegs_eq st si _ hn _ (Nat.le_refl _), Option.bind_eq_bind, Option.some_bind]
  have hc2 : (shifted st si st.NumberOfShiftRegisters).DIN_Callback = false := hc
  simp [hc2, ranGpio]

theorem shifted_byte (st : GSiSRIO) (si : Nat → Nat) (j : Nat)
    (hn : st.NumberOfShiftRegisters ≤ MAX_SRs) (hj : j < st.NumberOfShiftRegisters) :
    readAt (shifted st si st.NumberOfShiftRegisters).SR165ByteSet j = some (assemble si j) := by
  have h4 : j < MAX_SRs := Nat.lt_of_lt_of_le hj hn
  rw [readAt_lt _ _ h4]
  simp [shifted, hj]

theorem readAt_congr {n : Nat} (a b : Fin n → Nat) (i : Nat)
    (h : ∀ hi : i < n, a ⟨i, hi⟩ = b ⟨i, hi⟩) : readAt a i = readAt b i := by
  unfold readAt
  split
  · rename_i hi
    rw [h hi]
  · rfl

theorem Valid_construct (a b c d : Nat) : Valid (construct a b c d) := by
  unfold Valid construct MAX_SRs
  exact ⟨by show 1 ≤ 4; decide, by show 8 = 1 * 8; rfl⟩

theorem Valid_NumberSet (st : GSiSRIO) (num : Nat) : Valid (SRIO_NumberSet st num) := by
  unfold Valid SRIO_NumberSet
  simp only [MAX_SRs]
  split <;> constructor <;> omega

theorem perform_valid (st : GSiSRIO) (c : Call) (hv : Valid st) (hc : inRange c = true) :
    ∃ st', perform st c = some st' ∧ Valid st' := by
  cases c with
  | numberSet num => exact ⟨_, rfl, Valid_NumberSet st num⟩
  | debounceSet db => exact ⟨_, rfl, hv⟩
  | init callback => exact ⟨_, rfl, hv⟩
  | run si =>
    refine ⟨ranState st si, ?_, Valid_ranState st si hv⟩
    simp [perform, Run_eq st si hv]
  | srSet SR byteSet =>
    have h : SR < MAX_SRs := by simpa [inRange] using hc
    refine ⟨{ st with SR595ByteSet := Function.update st.SR595ByteSet ⟨SR, h⟩ byteSet }, ?_, hv⟩
    simp [perform, DOUT_SRSet, writeAt_lt _ _ _ h]
  | pinSet pin pin_value =>
    have h : pin < MAX_SRs * 8 := by simpa [inRange] using hc
    exact ⟨_, DOUT_PinSet_eq st pin pin_value h, hv⟩

theorem performAll_valid (calls : List Call) :
    ∀ st : GSiSRIO, Valid st → (∀ c ∈ calls, inRange c = true) →
      ∃ st', performAll st calls = some st' ∧ Valid st' := by
  induction calls with
  | nil =>
    intro st hv _
    exact ⟨st, rfl, hv⟩
  | cons c cs ih =>
    intro st hv hr
    obtain ⟨s1, h1, v1⟩ := perform_valid st c hv (hr c (List.mem_cons_self c cs))
    obtain ⟨s2, h2, v2⟩ := ih s1 v1 (fun x hx => hr x (List.mem_cons_of_mem c hx))
    refine ⟨s2, ?_, v2⟩
    unfold performAll at h2 ⊢
    rw [List.foldlM_cons, h1]
    exact h2

theorem pinStep_fires_at_one (amount old ctr value : Nat)
    (h : (pinStep amount old ctr value).2.1 = 1) : (pinStep amount old ctr value).2.2 = true := by
  by_cases hov : old = value
  · subst hov
    rw [pinStep_same] at h ⊢
    simpa using h
  · by_cases h2 : amount < 2
    · rw [pinStep_immediate _ _ _ _ hov h2]
    · rw [pinStep_armed _ _ _ _ hov (by omega)] at h ⊢
      simpa using h

theorem flatMap_congr_mem {α β : Type} (l : List α) (f g : α → List β)
    (h : ∀ x ∈ l, f x = g x) : l.flatMap f = l.flatMap g := by
  induction l with
  | nil => rfl
  | cons a l ih =>
    rw [List.flatMap_cons, List.flatMap_cons, h a (List.mem_cons_self a l),
      ih (fun x hx => h x (List.mem_cons_of_mem a hx))]

theorem flatMap_eq_nil_mem {α β : Type} (l : List α) (f : α → List β)
    (h : ∀ x ∈ l, f x = []) : l.flatMap f = [] := by
  induction l with
  | nil => rfl
  | cons a l ih =>
    rw [List.flatMap_cons, h a (List.mem_cons_self a l),
      ih (fun x hx => h x (List.mem_cons_of_mem a hx)), List.append_nil]

theorem callbacks_by_pin (st : GSiSRIO) (si : Nat → Nat) (hc : st.DIN_Callback = true) :
    callbacks (ranGpio st ++ ranCalls st si) =
      (List.range st.SRNumberOfPins).flatMap
        (fun p => callbacksFor p (ranGpio st ++ ranCalls st si)) := by
  rw [callbacks_ran, if_pos hc]
  apply flatMap_congr_mem
  intro p hp
  rw [callbacksFor_ran st si p hc (List.mem_range.mp hp)]

theorem deliveredIn_eq (st : GSiSRIO) (inp : Nat → Nat → Nat) (hv : Valid st) (j : Nat) :
    deliveredIn st inp j =
      some (callbacks (ranGpio (ranStates st inp j) ++ ranCalls (ranStates st inp j) (inp j))) := by
  simp [deliveredIn, runs_eq st inp hv, Run_eq _ _ (Valid_ranStates st inp hv j)]

theorem quiet (st : GSiSRIO) (inp : Nat → Nat → Nat) (p : Nat) (h : p < MAX_SRs * 8)
    (hc : st.DIN_Callback = true) (hp : p < st.SRNumberOfPins) (v : Nat)
    (hold : st.SRDINStateOld ⟨p, h⟩ = v) (h0 : st.SRIODebounceCounter ⟨p, h⟩ = 0)
    (hs : ∀ j, sampleOf (ranStates st inp j) (inp j) p = v) :
    ∀ j,
      ((ranStates st inp j).SRDINStateOld ⟨p, h⟩ = v ∧
        (ranStates st inp j).SRIODebounceCounter ⟨p, h⟩ = 0) ∧
      callbacksFor p (ranGpio (ranStates st inp j) ++ ranCalls (ranStates st inp j) (inp j)) = [] := by
  have inv : ∀ j, (ranStates st inp j).SRDINStateOld ⟨p, h⟩ = v ∧
      (ranStates st inp j).SRIODebounceCounter ⟨p, h⟩ = 0 := by
    intro j
    induction j with
    | zero => exact ⟨hold, h0⟩
    | succ j ih =>
      obtain ⟨_, c2, _, c4, _⟩ := ranStates_config st inp j
      obtain ⟨e1, e2, _⟩ := ranState_pin (ranStates st inp j) (inp j) p h (c4.trans hc)
        (by rw [c2]; exact hp)
      have hstep : runStep (ranStates st inp j) (inp j) ⟨p, h⟩ = (v, 0, false) := by
        unfold runStep
        rw [hs j, ih.1, ih.2, pinStep_same]
        simp [decr]
      show (ranState (ranStates st inp j) (inp j)).SRDINStateOld ⟨p, h⟩ = v ∧
        (ranState (ranStates st inp j) (inp j)).SRIODebounceCounter ⟨p, h⟩ = 0
      rw [e1, e2, hstep]
      exact ⟨rfl, rfl⟩
  intro j
  refine ⟨inv j, ?_⟩
  obtain ⟨_, c2, _, c4, _⟩ := ranStates_config st inp j
  obtain ⟨_, _, e3⟩ := ranState_pin (ranStates st inp j) (inp j) p h (c4.trans hc)
    (by rw [c2]; exact hp)
  rw [e3]
  unfold runStep
  rw [hs j, (inv j).1, (inv j).2, pinStep_same]
  simp [decr]

theorem assemble_allLow (SR : Nat) : assemble allLow SR = 0 := by
  simp [assemble, range8, datainStep, allLow, LOW, HIGH]

theorem sampleOf_allLow (st : GSiSRIO) (p : Nat) (hv : Valid st) (hp : p < st.SRNumberOfPins) :
    sampleOf st allLow p = 0 := by
  rw [sampleOf_eq st allLow p hv hp, assemble_allLow]
  simp

/-! ## The claims -/

/-- C1, as stated, fails twice.  With threshold 2, pin 3 changing to 1 in Run 0 and
held: the countdown reaches 1 in Run 1 and the notification is delivered in that
same Run, none in the Run after it.  With threshold 255 the same input held for
256 Runs delivers no notification at all. -/
theorem C1_counterexample :
    (readAt (engine 1 2).SRDINStateOld 3 = some 0 ∧
      (∀ j < 4, sampledIn (engine 1 2) allHigh j 3 = some 1) ∧
      countdownAfter (engine 1 2) allHigh 1 3 = some 1 ∧
      notifiedIn (engine 1 2) allHigh 1 3 = some [(3, 1)] ∧
      notifiedIn (engine 1 2) allHigh 2 3 = some [] ∧
      ¬ ∃ j < 3, countdownAfter (engine 1 2) allHigh j 3 = some 1 ∧
          notifiedIn (engine 1 2) allHigh (j + 1) 3 = some [(3, 1)]) ∧
    (readAt (engine 1 255).SRDINStateOld 3 = some 0 ∧
      (∀ j < 256, sampledIn (engine 1 255) allHigh j 3 = some 1) ∧
      ∀ j < 256, notifiedIn (engine 1 255) allHigh j 3 = some []) := by
  refine ⟨⟨by decide, by decide, by decide, by decide, by decide, by decide⟩, by decide, ?_, ?_⟩
  · intro j _
    rw [sampledIn_eq _ _ (Valid_engine 1 255) _ _ (by decide),
      sampleOf_eq _ _ _ (Valid_ranStates _ _ (Valid_engine 1 255) j)
        (by rw [(ranStates_config _ _ j).2.1]; decide)]
    have : assemble (allHigh j) (3 >>> 3) = assemble (fun _ => HIGH) 0 := rfl
    rw [this]
    decide
  · intro j _
    rw [notifiedIn_eq _ _ (Valid_engine 1 255)]
    exact congrArg some (wrapped (engine 1 255) allHigh 3 (by decide) rfl (by decide) rfl rfl j).2

/-- C1 (amended): for a threshold N with 2 ≤ N ≤ 254 and a pin p below the pin
count, from any well-formed state in which a callback is registered (so Run 0,
which takes the previous sample, already runs the debounce pass): if Run 0 samples
p at u, Run 1 samples p at v ≠ u (the sampled value changes in Run 1) and p is
sampled at v in L ≥ N + 1 consecutive Runs (Runs 1 .. L), then exactly one
notification for p is delivered over Runs 1 .. L, it carries (p, v), and it is
delivered in Run N (N - 1 Runs after the Run of the change), the very Run at whose
end the countdown of p is 1; no other of those Runs ends with the countdown at 1. -/
theorem C1_stable_change_notified_once (st : GSiSRIO) (inp : Nat → Nat → Nat) (p u v L : Nat)
    (hv : Valid st) (hc : st.DIN_Callback = true) (hp : p < st.SRNumberOfPins)
    (h2 : 2 ≤ st.SRIODebounceAmount) (h254 : st.SRIODebounceAmount ≤ 254)
    (hL : st.SRIODebounceAmount + 1 ≤ L)
    (hprev : sampledIn st inp 0 p = some u) (huv : v ≠ u)
    (hs : ∀ j < L, sampledIn st inp (1 + j) p = some v) :
    st.SRIODebounceAmount - 1 < L ∧
    notifiedIn st inp (1 + (st.SRIODebounceAmount - 1)) p = some [(p, v)] ∧
    countdownAfter st inp (1 + (st.SRIODebounceAmount - 1)) p = some 1 ∧
    ∀ j < L, j ≠ st.SRIODebounceAmount - 1 →
      notifiedIn st inp (1 + j) p = some [] ∧ countdownAfter st inp (1 + j) p ≠ some 1 := by
  have h : p < MAX_SRs * 8 := Nat.lt_of_lt_of_le hp (pins_le hv)
  obtain ⟨_, c2, c3, c4, _⟩ := ranStates_config st inp 1
  have hold : (ranStates st inp 1).SRDINStateOld ⟨p, h⟩ ≠ v := by
    rw [ranStates_old st inp p h hc hp 0, sampleOf_of_sampledIn st inp hv 0 p u h hprev]
    exact fun e => huv e.symm
  have hw := window (ranStates st inp 1) (fun i => inp (1 + i)) p h (c4.trans hc)
    (by rw [c2]; exact hp) (by rw [c3]; exact h2) (by rw [c3]; exact h254) v hold L
    (fun j hj => by
      rw [← ranStates_add]
      exact sampleOf_of_sampledIn st inp hv (1 + j) p v h (hs j hj))
  have key : ∀ j < L,
      notifiedIn st inp (1 + j) p =
        some (if j = st.SRIODebounceAmount - 1 then [(p, v)] else []) ∧
      countdownAfter st inp (1 + j) p = some (st.SRIODebounceAmount - j) := by
    intro j hj
    obtain ⟨_, w2, w3⟩ := hw j hj
    rw [← ranStates_add, c3] at w3
    rw [← ranStates_add, c3] at w2
    constructor
    · rw [notifiedIn_eq st inp hv, w3]
    · rw [countdownAfter_eq st inp hv _ _ h]
      have e : 1 + j + 1 = 1 + (j + 1) := by omega
      rw [e, w2]
  refine ⟨by omega, ?_, ?_, ?_⟩
  · rw [(key (st.SRIODebounceAmount - 1) (by omega)).1, if_pos rfl]
  · rw [(key (st.SRIODebounceAmount - 1) (by omega)).2]
    congr 1
    omega
  · intro j hj hne
    obtain ⟨k1, k2⟩ := key j hj
    constructor
    · rw [k1, if_neg hne]
    · rw [k2]
      intro heq
      have := Option.some.inj heq
      omega

/-- C1 (amended), instance: threshold 2, pin 0 of a one-register engine sampled at 0
in Run 0 and at 1 in Runs 1 to 4; the notification comes in Run 2. -/
theorem C1_stable_change_notified_once_witness :
    (Valid (engine 1 2) ∧ (engine 1 2).DIN_Callback = true ∧ 0 < (engine 1 2).SRNumberOfPins ∧
      2 ≤ (engine 1 2).SRIODebounceAmount ∧ (engine 1 2).SRIODebounceAmount ≤ 254 ∧
      (engine 1 2).SRIODebounceAmount + 1 ≤ 4 ∧
      sampledIn (engine 1 2) risesAfterFirst 0 0 = some 0 ∧ 1 ≠ 0 ∧
      ∀ j < 4, sampledIn (engine 1 2) risesAfterFirst (1 + j) 0 = some 1) ∧
    ((engine 1 2).SRIODebounceAmount - 1 < 4 ∧
      notifiedIn (engine 1 2) risesAfterFirst (1 + ((engine 1 2).SRIODebounceAmount - 1)) 0 =
        some [(0, 1)] ∧
      countdownAfter (engine 1 2) risesAfterFirst (1 + ((engine 1 2).SRIODebounceAmount - 1)) 0 =
        some 1 ∧
      ∀ j < 4, j ≠ (engine 1 2).SRIODebounceAmount - 1 →
        notifiedIn (engine 1 2) risesAfterFirst (1 + j) 0 = some [] ∧
          countdownAfter (engine 1 2) risesAfterFirst (1 + j) 0 ≠ some 1) :=
  ⟨⟨Valid_engine 1 2, rfl, by decide, by decide, by decide, by decide, by decide, by decide,
      by decide⟩,
    C1_stable_change_notified_once (engine 1 2) risesAfterFirst 0 0 1 4 (Valid_engine 1 2) rfl
      (by decide) (by decide) (by decide) (by decide) (by decide) (by decide) (by decide)⟩

/-- C2, as stated, fails: with chain length 1 and threshold 4, pin 3 sampled low in
Run 0 and high in Runs 1 to 7, the callback for pin 3 fires in Run 4, which is
cycle 3 after the transition (cycle 4 when the Run of the transition counts as
cycle 1), and does not fire in Run 5 nor in Run 6. -/
theorem C2_counterexample :
    sampledIn (engine 1 4) bit3Rises 0 3 = some 0 ∧
    (∀ j < 7, sampledIn (engine 1 4) bit3Rises (1 + j) 3 = some 1) ∧
    notifiedIn (engine 1 4) bit3Rises 4 3 = some [(3, 1)] ∧
    notifiedIn (engine 1 4) bit3Rises 5 3 = some [] ∧
    notifiedIn (engine 1 4) bit3Rises 6 3 = some [] := by
  decide

/-- C2 (amended): with chain length 1 (8 pins), threshold 4 and a callback
registered, from any state, if pin 3 is sampled low in Run 0 and high in Runs 1 to 7
(the transition and 6 subsequent Runs), then among Runs 1 to 7 the callback for
pin 3 fires exactly once, in Run 4, which is cycle 3 after the transition, with
(pin = 3, value = 1); it does not fire in the Run of the transition, on cycles 1
and 2, nor on cycles 4, 5 and 6. -/
theorem C2_scenario_fires_on_cycle_three (st : GSiSRIO) (inp : Nat → Nat → Nat)
    (hn : st.NumberOfShiftRegisters = 1) (hpins : st.SRNumberOfPins = 8)
    (hN : st.SRIODebounceAmount = 4) (hc : st.DIN_Callback = true)
    (hlow : sampledIn st inp 0 3 = some 0)
    (hhigh : ∀ j < 7, sampledIn st inp (1 + j) 3 = some 1) :
    ∀ j < 7, notifiedIn st inp (1 + j) 3 = some (if j = 3 then [(3, 1)] else []) := by
  have hv : Valid st := by
    unfold Valid
    rw [hn, hpins]
    decide
  have h : 3 < MAX_SRs * 8 := by decide
  have hp : 3 < st.SRNumberOfPins := by rw [hpins]; decide
  obtain ⟨_, c2, c3, c4, _⟩ := ranStates_config st inp 1
  have hold : (ranStates st inp 1).SRDINStateOld ⟨3, h⟩ ≠ 1 := by
    rw [ranStates_old st inp 3 h hc hp 0, sampleOf_of_sampledIn st inp hv 0 3 0 h hlow]
    decide
  have hw := window (ranStates st inp 1) (fun i => inp (1 + i)) 3 h (c4.trans hc)
    (by rw [c2]; exact hp) (by rw [c3, hN]; decide) (by rw [c3, hN]; decide) 1 hold 7
    (fun j hj => by
      rw [← ranStates_add]
      exact sampleOf_of_sampledIn st inp hv (1 + j) 3 1 h (hhigh j hj))
  intro j hj
  obtain ⟨_, _, w3⟩ := hw j hj
  rw [← ranStates_add, c3, hN] at w3
  rw [notifiedIn_eq st inp hv, w3]

/-- C2 (amended), instance: the engine set up with one register and threshold 4, pin 3
low in Run 0 and high from Run 1 on. -/
theorem C2_scenario_fires_on_cycle_three_witness :
    ((engine 1 4).NumberOfShiftRegisters = 1 ∧ (engine 1 4).SRNumberOfPins = 8 ∧
      (engine 1 4).SRIODebounceAmount = 4 ∧ (engine 1 4).DIN_Callback = true ∧
      sampledIn (engine 1 4) bit3Rises 0 3 = some 0 ∧
      ∀ j < 7, sampledIn (engine 1 4) bit3Rises (1 + j) 3 = some 1) ∧
    ∀ j < 7, notifiedIn (engine 1 4) bit3Rises (1 + j) 3 = some (if j = 3 then [(3, 1)] else []) :=
  ⟨⟨rfl, rfl, rfl, rfl, by decide, by decide⟩,
    C2_scenario_fires_on_cycle_three (engine 1 4) bit3Rises rfl rfl rfl rfl
      (by decide) (by decide)⟩

/-- C3: with threshold 0 or 1, a callback registered and the countdown of a pin p
below the pin count at 0, a Run delivers exactly one notification for p, carrying
(p, sampled value), when the freshly sampled value differs from the stored stable
value, delivers none for p when they are equal, and leaves the countdown of p at 0. -/
theorem C3_immediate_notification (st : GSiSRIO) (si : Nat → Nat) (p : Nat)
    (hv : Valid st) (hc : st.DIN_Callback = true) (hN : st.SRIODebounceAmount < 2)
    (hp : p < st.SRNumberOfPins) (h0 : readAt st.SRIODebounceCounter p = some 0) :
    ∃ st' tr v, Run st si = some (st', tr) ∧ DIN_PinGet st' p = some v ∧
      readAt st'.SRIODebounceCounter p = some 0 ∧
      (readAt st.SRDINStateOld p ≠ some v → callbacksFor p tr = [(p, v)]) ∧
      (readAt st.SRDINStateOld p = some v → callbacksFor p tr = []) := by
  have h : p < MAX_SRs * 8 := Nat.lt_of_lt_of_le hp (pins_le hv)
  obtain ⟨_, e2, e3⟩ := ranState_pin st si p h hc hp
  rw [readAt_lt _ _ h] at h0
  have hz : st.SRIODebounceCounter ⟨p, h⟩ = 0 := Option.some.inj h0
  refine ⟨ranState st si, ranGpio st ++ ranCalls st si, sampleOf st si p, Run_eq st si hv,
    DIN_PinGet_lt _ _ h, ?_, ?_, ?_⟩
  · rw [readAt_lt _ _ h, e2]
    congr 1
    unfold runStep pinStep
    rw [hz]
    split
    · simp [hN]
    · simp [decr]
  · intro hne
    have hne2 := readAt_ne_some _ _ _ h hne
    rw [e3]
    unfold runStep
    rw [pinStep_immediate _ _ _ _ hne2 hN]
    simp
  · intro heq
    rw [readAt_lt _ _ h] at heq
    have heq2 := Option.some.inj heq
    rw [e3]
    unfold runStep
    rw [heq2, hz, pinStep_same]
    simp [decr]

/-- C3, instance: threshold 1, one register, pin 3, serial-in LOW throughout. -/
theorem C3_immediate_notification_witness :
    (Valid (engine 1 1) ∧ (engine 1 1).DIN_Callback = true ∧
      (engine 1 1).SRIODebounceAmount < 2 ∧ 3 < (engine 1 1).SRNumberOfPins ∧
      readAt (engine 1 1).SRIODebounceCounter 3 = some 0) ∧
    ∃ st' tr v, Run (engine 1 1) allLow = some (st', tr) ∧ DIN_PinGet st' 3 = some v ∧
      readAt st'.SRIODebounceCounter 3 = some 0 ∧
      (readAt (engine 1 1).SRDINStateOld 3 ≠ some v → callbacksFor 3 tr = [(3, v)]) ∧
      (readAt (engine 1 1).SRDINStateOld 3 = some v → callbacksFor 3 tr = []) :=
  ⟨⟨Valid_engine 1 1, rfl, by decide, by decide, by decide⟩,
    C3_immediate_notification (engine 1 1) allLow 3 (Valid_engine 1 1) rfl (by decide)
      (by decide) (by decide)⟩

/-- C4: for a threshold N with 2 ≤ N ≤ 255 and a callback registered, if pin p
(below the pin count) is sampled at v in Runs 0 .. d-1 and is sampled at u ≠ v in
Run d (d ≥ 1), and none of Runs 0 .. d-1 ends with the countdown of p at 1, then no
notification for p is delivered in any of Runs 0 .. d.  This holds whatever the
stored stable value before Run 0 is, in particular when it is u, so that Run 0 is
a change to v and Run d flips back to the previous value. -/
theorem C4_flip_back_absorbed (st : GSiSRIO) (inp : Nat → Nat → Nat) (p u v d : Nat)
    (hv : Valid st) (hc : st.DIN_Callback = true) (hp : p < st.SRNumberOfPins)
    (h2 : 2 ≤ st.SRIODebounceAmount) (h255 : st.SRIODebounceAmount ≤ 255)
    (huv : v ≠ u) (hd : 1 ≤ d)
    (hs : ∀ j < d, sampledIn st inp j p = some v)
    (hback : sampledIn st inp d p = some u)
    (hcount : ∀ j < d, countdownAfter st inp j p ≠ some 1) :
    ∀ j ≤ d, notifiedIn st inp j p = some [] := by
  have h : p < MAX_SRs * 8 := Nat.lt_of_lt_of_le hp (pins_le hv)
  intro j hj
  obtain ⟨_, c2, c3, c4, _⟩ := ranStates_config st inp j
  obtain ⟨_, e2, e3⟩ := ranState_pin (ranStates st inp j) (inp j) p h (c4.trans hc)
    (by rw [c2]; exact hp)
  rw [notifiedIn_eq st inp hv, e3]
  have hfired := pinStep_fired (ranStates st inp j).SRIODebounceAmount
    ((ranStates st inp j).SRDINStateOld ⟨p, h⟩) ((ranStates st inp j).SRIODebounceCounter ⟨p, h⟩)
    (sampleOf (ranStates st inp j) (inp j) p) (by rw [c3]; exact h2)
  have hnot : (runStep (ranStates st inp j) (inp j) ⟨p, h⟩).2.1 ≠ 1 := by
    by_cases hjd : j < d
    · have := hcount j hjd
      rw [countdownAfter_eq st inp hv _ _ h] at this
      intro heq
      apply this
      show some ((ranState (ranStates st inp j) (inp j)).SRIODebounceCounter ⟨p, h⟩) = some 1
      rw [e2, heq]
    · have hjd2 : j = d := by omega
      subst hjd2
      obtain ⟨k, hk⟩ : ∃ k, j = k + 1 := ⟨j - 1, by omega⟩
      have hold : (ranStates st inp j).SRDINStateOld ⟨p, h⟩ = v := by
        rw [hk, ranStates_old st inp p h hc hp k]
        exact sampleOf_of_sampledIn st inp hv k p v h (hs k (by omega))
      have hsmp := sampleOf_of_sampledIn st inp hv j p u h hback
      unfold runStep
      rw [hold, hsmp, pinStep_armed _ _ _ _ huv (by rw [c3]; exact h2), c3]
      simp only [decr]
      split <;> omega
  unfold runStep at hnot ⊢
  rw [hfired]
  simp [hnot]

/-- C4, instance: threshold 4, pin 3 stable at 0, sampled at 1 in Runs 0 and 1 and
back at 0 in Run 2. -/
theorem C4_flip_back_absorbed_witness :
    (Valid (engine 1 4) ∧ (engine 1 4).DIN_Callback = true ∧ 3 < (engine 1 4).SRNumberOfPins ∧
      2 ≤ (engine 1 4).SRIODebounceAmount ∧ (engine 1 4).SRIODebounceAmount ≤ 255 ∧
      1 ≠ 0 ∧ 1 ≤ 2 ∧
      (∀ j < 2, sampledIn (engine 1 4) bit3Glitch j 3 = some 1) ∧
      sampledIn (engine 1 4) bit3Glitch 2 3 = some 0 ∧
      ∀ j < 2, countdownAfter (engine 1 4) bit3Glitch j 3 ≠ some 1) ∧
    ∀ j ≤ 2, notifiedIn (engine 1 4) bit3Glitch j 3 = some [] :=
  ⟨⟨Valid_engine 1 4, rfl, by decide, by decide, by decide, by decide, by decide,
      by decide, by decide, by decide⟩,
    C4_flip_back_absorbed (engine 1 4) bit3Glitch 3 0 1 2 (Valid_engine 1 4) rfl (by decide)
      (by decide) (by decide) (by decide) (by decide) (by decide) (by decide) (by decide)⟩

/-- C5: in every well-formed state and for every sample stream, the notifications a
Run delivers are strictly increasing in pin index (so at most one per pin), each
has its pin below the pin count, and each value is 0 or 1 and is what `DIN_PinGet`
returns for that pin on the input bytes this Run has just stored. -/
theorem C5_notifications_ascending (st : GSiSRIO) (si : Nat → Nat) (hv : Valid st) :
    ∃ st' tr, Run st si = some (st', tr) ∧
      (callbacks tr).Pairwise (fun a b => a.1 < b.1) ∧
      ∀ c ∈ callbacks tr,
        c.1 < st.SRNumberOfPins ∧ c.2 ≤ 1 ∧ DIN_PinGet st' c.1 = some c.2 := by
  refine ⟨ranState st si, ranGpio st ++ ranCalls st si, Run_eq st si hv, ?_, ?_⟩
  · rw [callbacks_ran]
    split
    · exact pairwise_flatMap_range _ (checkNotes_pin _) (checkNotes_length _) _
    · exact List.Pairwise.nil
  · intro c hc
    rw [callbacks_ran] at hc
    split at hc
    · rw [List.mem_flatMap] at hc
      obtain ⟨p, hp, hcp⟩ := hc
      obtain ⟨h, rfl⟩ := checkNotes_mem _ p c hcp
      refine ⟨List.mem_range.mp hp, pinBit_le_one _ _, ?_⟩
      rw [DIN_PinGet_lt _ _ h, ranState_bytes]
    · simp at hc

/-- C5, instance: a two-register engine with threshold 0 and serial-in HIGH
throughout, where pins 1 to 15 change in the same Run. -/
theorem C5_notifications_ascending_witness :
    Valid (engine 2 0) ∧
    ∃ st' tr, Run (engine 2 0) allHighRun = some (st', tr) ∧
      (callbacks tr).Pairwise (fun a b => a.1 < b.1) ∧
      ∀ c ∈ callbacks tr,
        c.1 < (engine 2 0).SRNumberOfPins ∧ c.2 ≤ 1 ∧ DIN_PinGet st' c.1 = some c.2 :=
  ⟨Valid_engine 2 0, C5_notifications_ascending (engine 2 0) allHighRun (Valid_engine 2 0)⟩

/-- C6: in every well-formed state with chain length n, the trace of a Run is the
GPIO prefix: write latch LOW, write latch HIGH, write clock LOW, then 8*n
repetitions of (write serial-out, read serial-in, write clock HIGH, write clock
LOW), followed by callback invocations only; the Run makes exactly 3 + 24*n
writes and 8*n reads. -/
theorem C6_gpio_sequence (st : GSiSRIO) (si : Nat → Nat) (hv : Valid st) :
    ∃ st' gpio calls, ∃ lv : Nat → Nat,
      Run st si = some (st', gpio ++ calls) ∧
      gpio =
        [ Event.digitalWrite st.pin_sh LOW, Event.digitalWrite st.pin_sh HIGH,
          Event.digitalWrite st.pin_sck LOW ] ++
        (List.range (8 * st.NumberOfShiftRegisters)).flatMap (fun k =>
          [ Event.digitalWrite st.pin_so (lv k), Event.digitalRead st.pin_si,
            Event.digitalWrite st.pin_sck HIGH, Event.digitalWrite st.pin_sck LOW ]) ∧
      (∀ e ∈ calls, isCallback e = true) ∧
      (gpio ++ calls).countP isWrite = 3 + 24 * st.NumberOfShiftRegisters ∧
      (gpio ++ calls).countP isRead = 8 * st.NumberOfShiftRegisters := by
  refine ⟨ranState st si, ranGpio st, ranCalls st si,
    fun k => (outByte st (k / 8) >>> (k % 8)) &&& 1, Run_eq st si hv, ranGpio_eq st,
    ranCalls_callbacks st si, ?_, ?_⟩
  · rw [List.countP_append, countP_zero_of_callbacks isWrite (fun _ _ => rfl) _
      (ranCalls_callbacks st si), ranGpio_writes]
    rfl
  · rw [List.countP_append, countP_zero_of_callbacks isRead (fun _ _ => rfl) _
      (ranCalls_callbacks st si), ranGpio_reads]
    rfl

/-- C6, instance: a two-register engine with a callback, serial-in HIGH throughout. -/
theorem C6_gpio_sequence_witness :
    Valid (engine 2 4) ∧
    ∃ st' gpio calls, ∃ lv : Nat → Nat,
      Run (engine 2 4) allHighRun = some (st', gpio ++ calls) ∧
      gpio =
        [ Event.digitalWrite (engine 2 4).pin_sh LOW, Event.digitalWrite (engine 2 4).pin_sh HIGH,
          Event.digitalWrite (engine 2 4).pin_sck LOW ] ++
        (List.range (8 * (engine 2 4).NumberOfShiftRegisters)).flatMap (fun k =>
          [ Event.digitalWrite (engine 2 4).pin_so (lv k),
            Event.digitalRead (engine 2 4).pin_si,
            Event.digitalWrite (engine 2 4).pin_sck HIGH,
            Event.digitalWrite (engine 2 4).pin_sck LOW ]) ∧
      (∀ e ∈ calls, isCallback e = true) ∧
      (gpio ++ calls).countP isWrite = 3 + 24 * (engine 2 4).NumberOfShiftRegisters ∧
      (gpio ++ calls).countP isRead = 8 * (engine 2 4).NumberOfShiftRegisters :=
  ⟨Valid_engine 2 4, C6_gpio_sequence (engine 2 4) allHighRun (Valid_engine 2 4)⟩

/-- C7, as stated, fails: with one register whose output byte is 1 (only bit 0
set), the eight levels a Run writes to the serial-out pin are 1, 0, 0, 0, 0, 0, 0, 0,
bit 0 first, whereas most-significant first would be 0, 0, 0, 0, 0, 0, 0, 1. -/
theorem C7_counterexample :
    (DOUT_SRSet (construct 6 7 8 9) 0 1).bind
        (fun st => (Run st allLow).map (fun r => levelsWrittenTo st.pin_so r.2)) =
      some [1, 0, 0, 0, 0, 0, 0, 0] ∧
    (List.range 8).map (fun i => (1 >>> (7 - i)) &&& 1) = [0, 0, 0, 0, 0, 0, 0, 1] := by
  decide

/-- C7 (amended): in every well-formed state with chain length n, the k-th
repetition (k = 0 .. 8*n-1) of the bit step of a Run writes to serial-out bit
k mod 8 of the output byte with index n-1-(k div 8): the bytes go out from byte n-1
down to byte 0, and within each byte the bits go out least-significant first
(bit 0 first, bit 7 last). -/
theorem C7_serial_out_lsb_first (st : GSiSRIO) (si : Nat → Nat) (hv : Valid st) :
    ∃ st' calls,
      Run st si = some (st',
        [ Event.digitalWrite st.pin_sh LOW, Event.digitalWrite st.pin_sh HIGH,
          Event.digitalWrite st.pin_sck LOW ] ++
        (List.range (8 * st.NumberOfShiftRegisters)).flatMap (fun k =>
          [ Event.digitalWrite st.pin_so ((outByte st (k / 8) >>> (k % 8)) &&& 1),
            Event.digitalRead st.pin_si,
            Event.digitalWrite st.pin_sck HIGH, Event.digitalWrite st.pin_sck LOW ]) ++
        calls) ∧
      (∀ e ∈ calls, isCallback e = true) ∧
      ∀ j < st.NumberOfShiftRegisters,
        readAt st.SR595ByteSet (st.NumberOfShiftRegisters - 1 - j) = some (outByte st j) := by
  refine ⟨ranState st si, ranCalls st si, ?_, ranCalls_callbacks st si,
    fun j hj => outByte_lt st j hv hj⟩
  rw [Run_eq st si hv, ranGpio_eq]

/-- C7 (amended), instance: a two-register engine, serial-in LOW throughout. -/
theorem C7_serial_out_lsb_first_witness :
    Valid (engine 2 4) ∧
    ∃ st' calls,
      Run (engine 2 4) allLow = some (st',
        [ Event.digitalWrite (engine 2 4).pin_sh LOW, Event.digitalWrite (engine 2 4).pin_sh HIGH,
          Event.digitalWrite (engine 2 4).pin_sck LOW ] ++
        (List.range (8 * (engine 2 4).NumberOfShiftRegisters)).flatMap (fun k =>
          [ Event.digitalWrite (engine 2 4).pin_so
              ((outByte (engine 2 4) (k / 8) >>> (k % 8)) &&& 1),
            Event.digitalRead (engine 2 4).pin_si,
            Event.digitalWrite (engine 2 4).pin_sck HIGH,
            Event.digitalWrite (engine 2 4).pin_sck LOW ]) ++
        calls) ∧
      (∀ e ∈ calls, isCallback e = true) ∧
      ∀ j < (engine 2 4).NumberOfShiftRegisters,
        readAt (engine 2 4).SR595ByteSet ((engine 2 4).NumberOfShiftRegisters - 1 - j) =
          some (outByte (engine 2 4) j) :=
  ⟨Valid_engine 2 4, C7_serial_out_lsb_first (engine 2 4) allLow (Valid_engine 2 4)⟩

/-- C8, as stated, fails: with chain length 2 and serial-in HIGH during the first
group of eight reads and LOW during the second, the byte assembled from group 0 is
255; after the Run input byte 2-1-0 = 1 holds 0, and the 255 is in input byte 0. -/
theorem C8_counterexample :
    assemble firstGroupHigh 0 = 255 ∧
    (Run (engine 2 4) firstGroupHigh).bind (fun r => readAt r.1.SR165ByteSet (2 - 1 - 0)) =
      some 0 ∧
    (Run (engine 2 4) firstGroupHigh).bind (fun r => readAt r.1.SR165ByteSet 0) = some 255 := by
  decide

/-- C8 (amended): in every well-formed state with chain length n, for every
j in 0 .. n-1, the byte accumulated over the j-th group of eight serial-in samples
of a Run is stored in input byte j, while the levels written to serial-out during
that group (trace positions 3 + 4*(8*j + bit), bit = 0 .. 7) are the bits of
output byte n-1-j. -/
theorem C8_input_byte_index (st : GSiSRIO) (si : Nat → Nat) (hv : Valid st) :
    ∃ st' tr, Run st si = some (st', tr) ∧
      ∀ j < st.NumberOfShiftRegisters,
        readAt st'.SR165ByteSet j = some (assemble si j) ∧
        ∃ b, readAt st.SR595ByteSet (st.NumberOfShiftRegisters - 1 - j) = some b ∧
          ∀ bit < 8, tr[3 + 4 * (8 * j + bit)]? =
            some (Event.digitalWrite st.pin_so ((b >>> bit) &&& 1)) := by
  refine ⟨ranState st si, ranGpio st ++ ranCalls st si, Run_eq st si hv, ?_⟩
  intro j hj
  refine ⟨ranState_byte st si j hv hj, outByte st j, outByte_lt st j hv hj, ?_⟩
  intro bit hbit
  rw [ranTrace_getElem st si (8 * j + bit) (by omega)]
  have h1 : (8 * j + bit) / 8 = j := by omega
  have h2 : (8 * j + bit) % 8 = bit := by omega
  rw [h1, h2]

/-- C8 (amended), instance: a two-register engine, serial-in HIGH during the first
group of reads only. -/
theorem C8_input_byte_index_witness :
    Valid (engine 2 4) ∧
    ∃ st' tr, Run (engine 2 4) firstGroupHigh = some (st', tr) ∧
      ∀ j < (engine 2 4).NumberOfShiftRegisters,
        readAt st'.SR165ByteSet j = some (assemble firstGroupHigh j) ∧
        ∃ b, readAt (engine 2 4).SR595ByteSet ((engine 2 4).NumberOfShiftRegisters - 1 - j) =
            some b ∧
          ∀ bit < 8, tr[3 + 4 * (8 * j + bit)]? =
            some (Event.digitalWrite (engine 2 4).pin_so ((b >>> bit) &&& 1)) :=
  ⟨Valid_engine 2 4, C8_input_byte_index (engine 2 4) firstGroupHigh (Valid_engine 2 4)⟩

/-- C9: for every register step j of a Run and every group of eight two-valued
samples s0 .. s7 read during it, the input byte stored for that group is
s0*128 + s1*64 + s2*32 + s3*16 + s4*8 + s5*4 + s6*2 + s7; the value mentions
neither the other samples, nor the previous input bytes, nor the output bytes. -/
theorem C9_input_byte_msb_first (st : GSiSRIO) (si : Nat → Nat) (j : Nat) (hv : Valid st)
    (hj : j < st.NumberOfShiftRegisters)
    (hs : ∀ i < 8, si (8 * j + i) = LOW ∨ si (8 * j + i) = HIGH) :
    ∃ st' tr, Run st si = some (st', tr) ∧
      readAt st'.SR165ByteSet j =
        some (si (8 * j) * 128 + si (8 * j + 1) * 64 + si (8 * j + 2) * 32 +
          si (8 * j + 3) * 16 + si (8 * j + 4) * 8 + si (8 * j + 5) * 4 +
          si (8 * j + 6) * 2 + si (8 * j + 7)) :=
  ⟨ranState st si, ranGpio st ++ ranCalls st si, Run_eq st si hv, by
    rw [ranState_byte st si j hv hj, assemble_levels si j hs]⟩

/-- C9, instance: register step 1 of a two-register engine, samples 8 .. 15 of a
stream that is HIGH on every third read. -/
theorem C9_input_byte_msb_first_witness :
    (Valid (engine 2 4) ∧ 1 < (engine 2 4).NumberOfShiftRegisters ∧
      ∀ i < 8, everyThird (8 * 1 + i) = LOW ∨ everyThird (8 * 1 + i) = HIGH) ∧
    ∃ st' tr, Run (engine 2 4) everyThird = some (st', tr) ∧
      readAt st'.SR165ByteSet 1 =
        some (everyThird (8 * 1) * 128 + everyThird (8 * 1 + 1) * 64 +
          everyThird (8 * 1 + 2) * 32 + everyThird (8 * 1 + 3) * 16 +
          everyThird (8 * 1 + 4) * 8 + everyThird (8 * 1 + 5) * 4 +
          everyThird (8 * 1 + 6) * 2 + everyThird (8 * 1 + 7)) :=
  ⟨⟨Valid_engine 2 4, by decide, by decide⟩,
    C9_input_byte_msb_first (engine 2 4) everyThird 1 (Valid_engine 2 4) (by decide)
      (by decide)⟩

/-- C10: for every state, every pin p below 8 * MAX_SRs = 32 and every value v,
`DOUT_PinSet(p, v)` succeeds and `DOUT_PinGet(p)` afterwards returns 1 when v is
non-zero and v itself when v is 0 or 1, whatever the output bytes held before. -/
theorem C10_output_pin_round_trip (st : GSiSRIO) (p v : Nat) (hp : p < MAX_SRs * 8) :
    ∃ st', DOUT_PinSet st p v = some st' ∧
      (v ≠ 0 → DOUT_PinGet st' p = some 1) ∧
      (v ≤ 1 → DOUT_PinGet st' p = some v) := by
  have h3 := shift3_lt hp
  have h7 := and7_lt p
  by_cases hv : v > 0
  · refine ⟨_, by simp only [DOUT_PinSet, readAt_lt _ _ h3, writeAt_lt _ _ _ h3, hv, ↓reduceIte,
      Option.bind_eq_bind, Option.some_bind]; rfl, ?_, ?_⟩
    · intro _
      simp only [DOUT_PinGet, readAt_lt _ _ h3, Option.bind_eq_bind, Option.some_bind,
        Function.update_same, setBit_reads_one _ _ h7]
    · intro hle
      have : v = 1 := by omega
      simp only [DOUT_PinGet, readAt_lt _ _ h3, Option.bind_eq_bind, Option.some_bind,
        Function.update_same, setBit_reads_one _ _ h7, this]
  · have hz : v = 0 := by omega
    refine ⟨_, by simp only [DOUT_PinSet, readAt_lt _ _ h3, writeAt_lt _ _ _ h3, hv, ↓reduceIte,
      Option.bind_eq_bind, Option.some_bind]; rfl, ?_, ?_⟩
    · intro hne
      exact absurd hz hne
    · intro _
      simp only [DOUT_PinGet, readAt_lt _ _ h3, Option.bind_eq_bind, Option.some_bind,
        Function.update_same, clearBit_reads_zero _ _ h7, hz]

/-- C10, instance: pin 13 of a freshly constructed engine set high. -/
theorem C10_output_pin_round_trip_witness :
    13 < MAX_SRs * 8 ∧
    ∃ st', DOUT_PinSet (construct 6 7 8 9) 13 1 = some st' ∧
      ((1 : Nat) ≠ 0 → DOUT_PinGet st' 13 = some 1) ∧
      ((1 : Nat) ≤ 1 → DOUT_PinGet st' 13 = some 1) :=
  ⟨by decide, C10_output_pin_round_trip (construct 6 7 8 9) 13 1 (by decide)⟩

/-- C11: for every register index r below MAX_SRs, every byte b and every bit
offset i in 0 .. 7, `DOUT_SRSet(r, b)` succeeds and afterwards `DOUT_PinGet(8*r + i)`
returns bit i of b, (b >> i) & 1 (so bit 7 of b is read at pin offset 8*r + 7),
and the output byte of every other register is unchanged. -/
theorem C11_output_byte_read_back (st : GSiSRIO) (r b i : Nat) (hr : r < MAX_SRs) (hi : i < 8) :
    ∃ st', DOUT_SRSet st r b = some st' ∧
      DOUT_PinGet st' (8 * r + i) = some ((b >>> i) &&& 1) ∧
      ∀ q, q ≠ r → readAt st'.SR595ByteSet q = readAt st.SR595ByteSet q := by
  obtain ⟨h3, h7⟩ := pin_split r i hi
  refine ⟨{ st with SR595ByteSet := Function.update st.SR595ByteSet ⟨r, hr⟩ b }, ?_, ?_, ?_⟩
  · simp [DOUT_SRSet, writeAt_lt _ _ _ hr]
  · simp [DOUT_PinGet, h3, h7, readAt_lt _ _ hr]
  · intro q hq
    unfold readAt
    split
    · rename_i hq4
      have : (⟨q, hq4⟩ : Fin MAX_SRs) ≠ ⟨r, hr⟩ := fun h => hq (Fin.mk.inj h)
      simp [Function.update_noteq this]
    · rfl

/-- C11, instance: register 2 of a fresh engine set to 0b10000000, read back at the
highest pin offset 8*2 + 7 = 23. -/
theorem C11_output_byte_read_back_witness :
    (2 < MAX_SRs ∧ 7 < 8) ∧
    ∃ st', DOUT_SRSet (construct 6 7 8 9) 2 128 = some st' ∧
      DOUT_PinGet st' (8 * 2 + 7) = some ((128 >>> 7) &&& 1) ∧
      ∀ q, q ≠ 2 → readAt st'.SR595ByteSet q = readAt (construct 6 7 8 9).SR595ByteSet q :=
  ⟨⟨by decide, by decide⟩, C11_output_byte_read_back (construct 6 7 8 9) 2 128 7 (by decide)
    (by decide)⟩

/-- C12: for every state, all pins p and q below 32 with q ≠ p and every value v,
`DOUT_PinSet(p, v)` succeeds, `DOUT_PinGet(q)` returns afterwards what it returned
before, and the input bytes, the chain length, the pin count, the debounce
threshold, the stored stable values, the countdowns and the callback are unchanged. -/
theorem C12_output_pin_set_frame (st : GSiSRIO) (p q v : Nat) (hp : p < MAX_SRs * 8)
    (hq : q < MAX_SRs * 8) (hne : q ≠ p) :
    ∃ st', DOUT_PinSet st p v = some st' ∧
      DOUT_PinGet st' q = DOUT_PinGet st q ∧
      st'.SR165ByteSet = st.SR165ByteSet ∧
      st'.NumberOfShiftRegisters = st.NumberOfShiftRegisters ∧
      st'.SRNumberOfPins = st.SRNumberOfPins ∧
      st'.SRIODebounceAmount = st.SRIODebounceAmount ∧
      st'.SRDINStateOld = st.SRDINStateOld ∧
      st'.SRIODebounceCounter = st.SRIODebounceCounter ∧
      st'.DIN_Callback = st.DIN_Callback := by
  have hp3 := shift3_lt hp
  have hq3 := shift3_lt hq
  refine ⟨_, DOUT_PinSet_eq st p v hp, ?_, rfl, rfl, rfl, rfl, rfl, rfl, rfl⟩
  simp only [DOUT_PinGet, readAt_lt _ _ hq3, Option.bind_eq_bind, Option.some_bind]
  congr 1
  by_cases hreg : q >>> 3 = p >>> 3
  · have hbit : q &&& 7 ≠ p &&& 7 := fun h7 => hne (pin_eq_of_parts p q hreg h7)
    have hfin : (⟨q >>> 3, hq3⟩ : Fin MAX_SRs) = ⟨p >>> 3, hp3⟩ := Fin.ext hreg
    rw [hfin, Function.update_same]
    split
    · exact setBit_other _ _ _ (and7_lt q) hbit
    · exact clearBit_other _ _ _ (and7_lt q) hbit
  · have hfin : (⟨q >>> 3, hq3⟩ : Fin MAX_SRs) ≠ ⟨p >>> 3, hp3⟩ := fun h => hreg (Fin.mk.inj h)
    rw [Function.update_noteq hfin]

/-- C12, instance: clearing pin 10 leaves pin 11 of the same register as it was. -/
theorem C12_output_pin_set_frame_witness :
    (10 < MAX_SRs * 8 ∧ 11 < MAX_SRs * 8 ∧ 11 ≠ 10) ∧
    ∃ st', DOUT_PinSet outputsLoaded 10 0 = some st' ∧
      DOUT_PinGet st' 11 = DOUT_PinGet outputsLoaded 11 ∧
      st'.SR165ByteSet = outputsLoaded.SR165ByteSet ∧
      st'.NumberOfShiftRegisters = outputsLoaded.NumberOfShiftRegisters ∧
      st'.SRNumberOfPins = outputsLoaded.SRNumberOfPins ∧
      st'.SRIODebounceAmount = outputsLoaded.SRIODebounceAmount ∧
      st'.SRDINStateOld = outputsLoaded.SRDINStateOld ∧
      st'.SRIODebounceCounter = outputsLoaded.SRIODebounceCounter ∧
      st'.DIN_Callback = outputsLoaded.DIN_Callback :=
  ⟨⟨by decide, by decide, by decide⟩,
    C12_output_pin_set_frame outputsLoaded 10 11 0 (by decide) (by decide) (by decide)⟩

/-- C13, as stated, fails at 0: `SRIO_NumberSet(0)` stores chain length 0 and pin
count 0, not 1 and 8. -/
theorem C13_counterexample :
    (SRIO_NumberSet (construct 6 7 8 9) 0).NumberOfShiftRegisters = 0 ∧
    (SRIO_NumberSet (construct 6 7 8 9) 0).SRNumberOfPins = 0 ∧
    (SRIO_NumberSet (construct 6 7 8 9) 0).NumberOfShiftRegisters ≠ 1 := by
  decide

/-- C13 (amended): for every requested n, after `SRIO_NumberSet(n)` the stored chain
length is n capped at MAX_SRs = 4 (n itself for n ≤ 4, 0 included, and 4 for n > 4)
and the stored pin count is 8 times that chain length. -/
theorem C13_chain_length_capped (st : GSiSRIO) (n : Nat) :
    (SRIO_NumberSet st n).NumberOfShiftRegisters = min n MAX_SRs ∧
    (n ≤ 4 → (SRIO_NumberSet st n).NumberOfShiftRegisters = n) ∧
    (4 < n → (SRIO_NumberSet st n).NumberOfShiftRegisters = 4) ∧
    (SRIO_NumberSet st n).SRNumberOfPins = 8 * (SRIO_NumberSet st n).NumberOfShiftRegisters := by
  unfold SRIO_NumberSet
  simp only [MAX_SRs]
  split
  · refine ⟨?_, ?_, ?_, ?_⟩
    · omega
    · intro h; omega
    · intro _; rfl
    · rfl
  · refine ⟨?_, ?_, ?_, ?_⟩
    · omega
    · intro _; rfl
    · intro h; omega
    · show n * 8 % 256 = 8 * n
      omega

/-- C14: when no callback is registered and the chain length is within the array
capacity, a Run delivers no notification, leaves every stored stable value and
every countdown unchanged, and still stores in each input byte j below the chain
length the byte assembled from the j-th group of serial-in samples. -/
theorem C14_no_callback_no_debounce (st : GSiSRIO) (si : Nat → Nat)
    (hn : st.NumberOfShiftRegisters ≤ MAX_SRs) (hc : st.DIN_Callback = false) :
    ∃ st' tr, Run st si = some (st', tr) ∧ callbacks tr = [] ∧
      st'.SRDINStateOld = st.SRDINStateOld ∧
      st'.SRIODebounceCounter = st.SRIODebounceCounter ∧
      ∀ j < st.NumberOfShiftRegisters, readAt st'.SR165ByteSet j = some (assemble si j) :=
  ⟨shifted st si st.NumberOfShiftRegisters, ranGpio st, Run_eq_plain st si hn hc,
    callbacks_ranGpio st, rfl, rfl, fun j hj => shifted_byte st si j hn hj⟩

/-- C14, instance: a fresh engine after `Init` with a null callback, serial-in HIGH on
every third read. -/
theorem C14_no_callback_no_debounce_witness :
    ((Init (construct 6 7 8 9) false).1.NumberOfShiftRegisters ≤ MAX_SRs ∧
      (Init (construct 6 7 8 9) false).1.DIN_Callback = false) ∧
    ∃ st' tr, Run (Init (construct 6 7 8 9) false).1 everyThird = some (st', tr) ∧
      callbacks tr = [] ∧
      st'.SRDINStateOld = (Init (construct 6 7 8 9) false).1.SRDINStateOld ∧
      st'.SRIODebounceCounter = (Init (construct 6 7 8 9) false).1.SRIODebounceCounter ∧
      ∀ j < (Init (construct 6 7 8 9) false).1.NumberOfShiftRegisters,
        readAt st'.SR165ByteSet j = some (assemble everyThird j) :=
  ⟨⟨by decide, rfl⟩,
    C14_no_callback_no_debounce (Init (construct 6 7 8 9) false).1 everyThird (by decide) rfl⟩

/-- C15: a Run in a well-formed state with chain length n leaves unchanged the
output bytes, the chain length, the pin count, the debounce threshold, the
callback, the input bytes of registers n and above, and the stored stable value
and countdown of every pin 8*n and above. -/
theorem C15_only_active_length_processed (st : GSiSRIO) (si : Nat → Nat) (hv : Valid st) :
    ∃ st' tr, Run st si = some (st', tr) ∧
      st'.SR595ByteSet = st.SR595ByteSet ∧
      st'.NumberOfShiftRegisters = st.NumberOfShiftRegisters ∧
      st'.SRNumberOfPins = st.SRNumberOfPins ∧
      st'.SRIODebounceAmount = st.SRIODebounceAmount ∧
      st'.DIN_Callback = st.DIN_Callback ∧
      (∀ j, st.NumberOfShiftRegisters ≤ j →
        readAt st'.SR165ByteSet j = readAt st.SR165ByteSet j) ∧
      (∀ p, 8 * st.NumberOfShiftRegisters ≤ p →
        readAt st'.SRDINStateOld p = readAt st.SRDINStateOld p ∧
        readAt st'.SRIODebounceCounter p = readAt st.SRIODebounceCounter p) := by
  obtain ⟨c1, c2, c3, c4, c5⟩ := ranState_config st si
  refine ⟨ranState st si, ranGpio st ++ ranCalls st si, Run_eq st si hv, c5, c1, c2, c3, c4,
    ?_, ?_⟩
  · intro j hj
    apply readAt_congr
    intro hi
    rw [ranState_bytes]
    have : ¬ j < st.NumberOfShiftRegisters := by omega
    simp [shifted, this]
  · intro p hp
    have hpins : ¬ p < st.SRNumberOfPins := by
      rw [hv.2]
      omega
    constructor
    · apply readAt_congr
      intro hi
      unfold ranState
      split
      · simp [checked, shifted, hpins]
      · rfl
    · apply readAt_congr
      intro hi
      unfold ranState
      split
      · simp [checked, shifted, hpins]
      · rfl

/-- C15, instance: a one-register engine with a callback, serial-in HIGH throughout. -/
theorem C15_only_active_length_processed_witness :
    Valid (engine 1 4) ∧
    ∃ st' tr, Run (engine 1 4) allHighRun = some (st', tr) ∧
      st'.SR595ByteSet = (engine 1 4).SR595ByteSet ∧
      st'.NumberOfShiftRegisters = (engine 1 4).NumberOfShiftRegisters ∧
      st'.SRNumberOfPins = (engine 1 4).SRNumberOfPins ∧
      st'.SRIODebounceAmount = (engine 1 4).SRIODebounceAmount ∧
      st'.DIN_Callback = (engine 1 4).DIN_Callback ∧
      (∀ j, (engine 1 4).NumberOfShiftRegisters ≤ j →
        readAt st'.SR165ByteSet j = readAt (engine 1 4).SR165ByteSet j) ∧
      (∀ p, 8 * (engine 1 4).NumberOfShiftRegisters ≤ p →
        readAt st'.SRDINStateOld p = readAt (engine 1 4).SRDINStateOld p ∧
        readAt st'.SRIODebounceCounter p = readAt (engine 1 4).SRIODebounceCounter p) :=
  ⟨Valid_engine 1 4, C15_only_active_length_processed (engine 1 4) allHighRun (Valid_engine 1 4)⟩

/-- C16: every sequence of calls of `SRIO_NumberSet` (any argument), `DebounceSet`,
`Init`, `Run` (any samples) and of `DOUT_SRSet` and `DOUT_PinSet` with the register
below MAX_SRs and the pin below 8 * MAX_SRs, made on a freshly constructed engine,
succeeds; in the state reached the chain length is at most MAX_SRs = 4 and the pin
count is 8 times the chain length, at most 32; and from that state both `Run` and
the debounce pass complete for every sample stream, that is, none of their array
accesses is out of range. -/
theorem C16_run_total_on_reachable (a b c d : Nat) (calls : List Call)
    (hr : ∀ x ∈ calls, inRange x = true) :
    ∃ st, performAll (construct a b c d) calls = some st ∧
      st.NumberOfShiftRegisters ≤ MAX_SRs ∧
      st.SRNumberOfPins = 8 * st.NumberOfShiftRegisters ∧
      st.SRNumberOfPins ≤ 32 ∧
      (∀ si, ∃ r, Run st si = some r) ∧
      ∀ tr, ∃ r, CheckDINs (st, tr) = some r := by
  obtain ⟨st, h1, hv⟩ := performAll_valid calls (construct a b c d) (Valid_construct a b c d) hr
  have hp := pins_le hv
  refine ⟨st, h1, hv.1, by rw [hv.2, Nat.mul_comm], hp, ?_, ?_⟩
  · intro si
    exact ⟨_, Run_eq st si hv⟩
  · intro tr
    exact ⟨_, checkPins_eq st tr st.SRNumberOfPins hp⟩

/-- C16, instance: the calls of `sketch` on an engine with the default wiring. -/
theorem C16_run_total_on_reachable_witness :
    (∀ x ∈ sketch, inRange x = true) ∧
    ∃ st, performAll (construct 6 7 8 9) sketch = some st ∧
      st.NumberOfShiftRegisters ≤ MAX_SRs ∧
      st.SRNumberOfPins = 8 * st.NumberOfShiftRegisters ∧
      st.SRNumberOfPins ≤ 32 ∧
      (∀ si, ∃ r, Run st si = some r) ∧
      ∀ tr, ∃ r, CheckDINs (st, tr) = some r :=
  ⟨by decide, C16_run_total_on_reachable 6 7 8 9 sketch (by decide)⟩

/-- C17: for a threshold N with 2 ≤ N ≤ 254, a callback registered, a pin p below
the pin count and any prior countdown, if in Run 0 the sampled value v of p
differs from the stored stable value and p is sampled at v in Runs 0 .. L-1 with
L ≥ N, then Runs 0 .. N-2 deliver no notification for p, Run N-1 delivers exactly
the notification (p, v), and Runs N .. L-1 deliver none. -/
theorem C17_exact_latency (st : GSiSRIO) (inp : Nat → Nat → Nat) (p v L : Nat)
    (hv : Valid st) (hc : st.DIN_Callback = true) (hp : p < st.SRNumberOfPins)
    (h2 : 2 ≤ st.SRIODebounceAmount) (h254 : st.SRIODebounceAmount ≤ 254)
    (hL : st.SRIODebounceAmount ≤ L)
    (hch : readAt st.SRDINStateOld p ≠ some v)
    (hs : ∀ j < L, sampledIn st inp j p = some v) :
    (∀ j, j + 1 < st.SRIODebounceAmount → notifiedIn st inp j p = some []) ∧
    notifiedIn st inp (st.SRIODebounceAmount - 1) p = some [(p, v)] ∧
    ∀ j, st.SRIODebounceAmount ≤ j → j < L → notifiedIn st inp j p = some [] := by
  have h : p < MAX_SRs * 8 := Nat.lt_of_lt_of_le hp (pins_le hv)
  have hw := window st inp p h hc hp h2 h254 v (readAt_ne_some _ _ _ h hch) L
    (fun j hj => sampleOf_of_sampledIn st inp hv j p v h (hs j hj))
  refine ⟨?_, ?_, ?_⟩
  · intro j hj
    obtain ⟨_, _, w3⟩ := hw j (by omega)
    rw [notifiedIn_eq st inp hv, w3, if_neg (by omega)]
  · obtain ⟨_, _, w3⟩ := hw (st.SRIODebounceAmount - 1) (by omega)
    rw [notifiedIn_eq st inp hv, w3, if_pos rfl]
  · intro j hj hjL
    obtain ⟨_, _, w3⟩ := hw j hjL
    rw [notifiedIn_eq st inp hv, w3, if_neg (by omega)]

/-- C17, instance: threshold 4, pin 3 of a one-register engine changing to 1 in
Run 0 and held for 9 Runs. -/
theorem C17_exact_latency_witness :
    (Valid (engine 1 4) ∧ (engine 1 4).DIN_Callback = true ∧ 3 < (engine 1 4).SRNumberOfPins ∧
      2 ≤ (engine 1 4).SRIODebounceAmount ∧ (engine 1 4).SRIODebounceAmount ≤ 254 ∧
      (engine 1 4).SRIODebounceAmount ≤ 9 ∧
      readAt (engine 1 4).SRDINStateOld 3 ≠ some 1 ∧
      ∀ j < 9, sampledIn (engine 1 4) allHigh j 3 = some 1) ∧
    ((∀ j, j + 1 < (engine 1 4).SRIODebounceAmount →
        notifiedIn (engine 1 4) allHigh j 3 = some []) ∧
      notifiedIn (engine 1 4) allHigh ((engine 1 4).SRIODebounceAmount - 1) 3 = some [(3, 1)] ∧
      ∀ j, (engine 1 4).SRIODebounceAmount ≤ j → j < 9 →
        notifiedIn (engine 1 4) allHigh j 3 = some []) :=
  ⟨⟨Valid_engine 1 4, rfl, by decide, by decide, by decide, by decide, by decide, by decide⟩,
    C17_exact_latency (engine 1 4) allHigh 3 1 9 (Valid_engine 1 4) rfl
      (by decide) (by decide) (by decide) (by decide) (by decide) (by decide)⟩

/-- C18: after a Run in a well-formed state with a callback registered, for every
pin p below the pin count the stored stable value equals what `DIN_PinGet(p)`
returns, and if the countdown of p reads 1 at the end of the Run then the Run
delivered a notification for p, carrying (p, that value). -/
theorem C18_stable_value_tracks_input (st : GSiSRIO) (si : Nat → Nat) (hv : Valid st)
    (hc : st.DIN_Callback = true) :
    ∃ st' tr, Run st si = some (st', tr) ∧
      ∀ p < st.SRNumberOfPins, ∃ v, DIN_PinGet st' p = some v ∧
        readAt st'.SRDINStateOld p = some v ∧
        (readAt st'.SRIODebounceCounter p = some 1 → callbacksFor p tr = [(p, v)]) := by
  refine ⟨ranState st si, ranGpio st ++ ranCalls st si, Run_eq st si hv, ?_⟩
  intro p hp
  have h : p < MAX_SRs * 8 := Nat.lt_of_lt_of_le hp (pins_le hv)
  obtain ⟨e1, e2, e3⟩ := ranState_pin st si p h hc hp
  refine ⟨sampleOf st si p, DIN_PinGet_lt _ _ h, ?_, ?_⟩
  · rw [readAt_lt _ _ h, e1]
    congr 1
    exact pinStep_fst _ _ _ _
  · intro h1
    rw [readAt_lt _ _ h, e2] at h1
    have hone := Option.some.inj h1
    rw [e3]
    unfold runStep at hone ⊢
    rw [pinStep_fires_at_one _ _ _ _ hone]
    rfl

/-- C18, instance: a two-register engine with threshold 1, serial-in HIGH on every
third read. -/
theorem C18_stable_value_tracks_input_witness :
    (Valid (engine 2 1) ∧ (engine 2 1).DIN_Callback = true) ∧
    ∃ st' tr, Run (engine 2 1) everyThird = some (st', tr) ∧
      ∀ p < (engine 2 1).SRNumberOfPins, ∃ v, DIN_PinGet st' p = some v ∧
        readAt st'.SRDINStateOld p = some v ∧
        (readAt st'.SRIODebounceCounter p = some 1 → callbacksFor p tr = [(p, v)]) :=
  ⟨⟨Valid_engine 2 1, rfl⟩,
    C18_stable_value_tracks_input (engine 2 1) everyThird (Valid_engine 2 1) rfl⟩

/-- C19: with threshold 255, a callback registered and every countdown at 0 in a
well-formed state, no Run of any sequence of Runs, whatever the samples, delivers a
notification; at the end of every Run each pin below the pin count has its
countdown at 0 (a detected change stores (255 + 1) mod 256 = 0) and its stored
stable value equal to the value just sampled. -/
theorem C19_threshold_255_never_notifies (st : GSiSRIO) (inp : Nat → Nat → Nat)
    (hv : Valid st) (hc : st.DIN_Callback = true) (hN : st.SRIODebounceAmount = 255)
    (h0 : ∀ i, st.SRIODebounceCounter i = 0) (j : Nat) :
    deliveredIn st inp j = some [] ∧
    ∀ p < st.SRNumberOfPins,
      countdownAfter st inp j p = some 0 ∧
      ∃ v, sampledIn st inp j p = some v ∧
        (runs st inp (j + 1)).bind (fun s => readAt s.SRDINStateOld p) = some v := by
  constructor
  · obtain ⟨_, c2, _, c4, _⟩ := ranStates_config st inp j
    rw [deliveredIn_eq st inp hv, callbacks_by_pin _ _ (c4.trans hc)]
    congr 1
    apply flatMap_eq_nil_mem
    intro p hp
    rw [c2] at hp
    have hp2 := List.mem_range.mp hp
    have h : p < MAX_SRs * 8 := Nat.lt_of_lt_of_le hp2 (pins_le hv)
    exact (wrapped st inp p h hc hp2 hN (h0 ⟨p, h⟩) j).2
  · intro p hp
    have h : p < MAX_SRs * 8 := Nat.lt_of_lt_of_le hp (pins_le hv)
    refine ⟨?_, sampleOf (ranStates st inp j) (inp j) p, sampledIn_eq st inp hv j p h, ?_⟩
    · rw [countdownAfter_eq st inp hv j p h, (wrapped st inp p h hc hp hN (h0 ⟨p, h⟩) (j + 1)).1]
    · rw [runs_eq st inp hv]
      simp only [Option.some_bind, readAt_lt _ _ h]
      rw [ranStates_old st inp p h hc hp j]

/-- C19, instance: a two-register engine with threshold 255, serial-in HIGH
throughout, third Run. -/
theorem C19_threshold_255_never_notifies_witness :
    (Valid (engine 2 255) ∧ (engine 2 255).DIN_Callback = true ∧
      (engine 2 255).SRIODebounceAmount = 255 ∧
      ∀ i, (engine 2 255).SRIODebounceCounter i = 0) ∧
    (deliveredIn (engine 2 255) allHigh 2 = some [] ∧
      ∀ p < (engine 2 255).SRNumberOfPins,
        countdownAfter (engine 2 255) allHigh 2 p = some 0 ∧
        ∃ v, sampledIn (engine 2 255) allHigh 2 p = some v ∧
          (runs (engine 2 255) allHigh (2 + 1)).bind (fun s => readAt s.SRDINStateOld p) =
            some v) :=
  ⟨⟨Valid_engine 2 255, rfl, rfl, fun _ => rfl⟩,
    C19_threshold_255_never_notifies (engine 2 255) allHigh (Valid_engine 2 255) rfl rfl
      (fun _ => rfl) 2⟩

/-- C20: a freshly constructed engine has stored stable value 1 for pin 0 and 0 for
every other pin, every countdown and every input byte at 0, chain length 1, pin
count 8 and threshold 32; after `Init` with a callback, with serial-in LOW on every
read, the Run with index 31 (the 32nd Run) delivers exactly the notification
(pin 0, value 0) and every other Run delivers no notification at all. -/
theorem C20_fresh_engine_single_notification (a b c d : Nat) (j : Nat) :
    (readAt (construct a b c d).SRDINStateOld 0 = some 1 ∧
      (∀ p, 0 < p → p < MAX_SRs * 8 → readAt (construct a b c d).SRDINStateOld p = some 0) ∧
      (∀ p < MAX_SRs * 8, readAt (construct a b c d).SRIODebounceCounter p = some 0) ∧
      (∀ r < MAX_SRs, readAt (construct a b c d).SR165ByteSet r = some 0) ∧
      (construct a b c d).NumberOfShiftRegisters = 1 ∧
      (construct a b c d).SRNumberOfPins = 8 ∧
      (construct a b c d).SRIODebounceAmount = 32) ∧
    deliveredIn (Init (construct a b c d) true).1 (fun _ => allLow) j =
      some (if j = 31 then [(0, 0)] else []) := by
  constructor
  · refine ⟨rfl, ?_, ?_, ?_, rfl, rfl, rfl⟩
    · intro p h0 h
      rw [readAt_lt _ _ h]
      have : ¬ p = 0 := by omega
      simp [construct, this]
    · intro p h
      rw [readAt_lt _ _ h]
      rfl
    · intro r h
      rw [readAt_lt _ _ h]
      rfl
  · have hv : Valid (Init (construct a b c d) true).1 := Valid_construct a b c d
    have hc : (Init (construct a b c d) true).1.DIN_Callback = true := rfl
    have hpins : (Init (construct a b c d) true).1.SRNumberOfPins = 8 := rfl
    obtain ⟨_, c2, _, c4, _⟩ := ranStates_config (Init (construct a b c d) true).1
      (fun _ => allLow) j
    have hs : ∀ p, p < 8 → ∀ i,
        sampleOf (ranStates (Init (construct a b c d) true).1 (fun _ => allLow) i) allLow p = 0 := by
      intro p hp i
      apply sampleOf_allLow _ p (Valid_ranStates _ _ hv i)
      rw [(ranStates_config _ _ i).2.1, hpins]
      exact hp
    have hzero := (window (Init (construct a b c d) true).1 (fun _ => allLow) 0 (by decide) hc
      (by show 0 < 8; decide) (by show 2 ≤ 32; decide) (by show 32 ≤ 254; decide) 0
      (by simp [Init, construct]) (j + 1)
      (fun i _ => hs 0 (by decide) i) j (Nat.lt_succ_self j)).2.2
    have hrest : ∀ p, 0 < p → p < 8 →
        callbacksFor p (ranGpio (ranStates (Init (construct a b c d) true).1 (fun _ => allLow) j) ++
          ranCalls (ranStates (Init (construct a b c d) true).1 (fun _ => allLow) j) allLow) = [] := by
      intro p hp0 hp8
      have h : p < MAX_SRs * 8 := by
        show p < 4 * 8
        omega
      have hne : ¬ p = 0 := by omega
      exact (quiet (Init (construct a b c d) true).1 (fun _ => allLow) p h hc
        (by rw [hpins]; exact hp8) 0 (by simp [Init, construct, hne]) rfl
        (fun i => hs p hp8 i) j).2
    rw [deliveredIn_eq _ _ hv, callbacks_by_pin _ _ (c4.trans hc), c2, hpins, range8]
    simp only [List.flatMap_cons, List.flatMap_nil, List.append_nil]
    rw [hzero, hrest 1 (by decide) (by decide), hrest 2 (by decide) (by decide),
      hrest 3 (by decide) (by decide), hrest 4 (by decide) (by decide),
      hrest 5 (by decide) (by decide), hrest 6 (by decide) (by decide),
      hrest 7 (by decide) (by decide)]
    simp only [List.append_nil]
    rfl

end SRIO
